import Mathlib

/-!
# kafkalog: the log producer adapter (`producer.go`)

A shallow embedding of `producer.go` and of the Go library functions it calls
(`strings.Split`, `time.Time.Format`, `fmt.Sprintf`, `encoding/json`,
`unicode/utf8`), followed by the properties of the adapter.

Conventions of the embedding:

* a Go `string` is a sequence of bytes (`GoString`), not a sequence of code points;
* a Go `error` is represented by the text that its `Error()` method returns;
* the state of the underlying `sarama.AsyncProducer` is carried inside the adapter
  (`AsyncProducer.prodr`), a nil interface value being `none`; the producer accepts every
  record sent on `Input()`, so a send on that channel completes;
* a call produces an `Outcome`: it returns, panics, or exits the process; lines written
  to the standard logger are recorded without the date that the logger puts in front;
* the environment, the variable `GetSaramaProducer`, the readings of `time.Now()` and the
  signal received are arguments of the functions that depend on them;
* a goroutine started by `init` is described by what its body does when it runs.
-/

namespace Kafkalog

/-! ## Go strings -/

/-- A Go `byte`. -/
abbrev Byte := Fin 256

/-- A Go `string` (equally a `[]byte`): an arbitrary sequence of bytes. -/
abbrev GoString := List Byte

/-- A Go `error`, represented by the text that `Error()` returns. -/
abbrev GoError := String

/-- The bytes of a string literal of the source whose characters are all ASCII. -/
def ascii (s : String) : GoString := s.toList.map (fun c => Fin.ofNat c.toNat)

/-! ## Outcomes of a call -/

/-- How a call ends: a normal return (with the lines it wrote to the standard logger and
the state it leaves), a panic (with the panic value), or process termination through
`os.Exit` (with the lines logged before, the exit status and the state left behind). -/
inductive Outcome (α : Type) where
  | returned (log : List String) (a : α)
  | panicked (v : String)
  | exited (log : List String) (code : Nat) (a : α)
deriving Repr, DecidableEq

/-- The panic value of a method call through a nil interface value. -/
def nilDereference : String :=
  "runtime error: invalid memory address or nil pointer dereference"

/-! ## `strings.Split(s, ",")` -/

/-- Go's `strings.Split(s, sep)` for a separator `sep` of one byte: the pieces of `s`
between successive occurrences of the separator, in order. -/
def Split (sep : Byte) : GoString → List GoString
  | [] => [[]]
  | b :: rest =>
    if b = sep then [] :: Split sep rest
    else
      match Split sep rest with
      | [] => [[b]]
      | piece :: pieces => (b :: piece) :: pieces

/-- Go's `strings.Join(elems, sep)` for a separator of one byte. -/
def Join (sep : Byte) : List GoString → GoString
  | [] => []
  | [piece] => piece
  | piece :: next :: pieces => piece ++ sep :: Join sep (next :: pieces)

/-- The byte `','`. -/
def comma : Byte := 0x2c

/-! ## The environment -/

/-- The process environment: the value of each variable that is set. -/
abbrev Env := String → Option GoString

/-- Go's `os.Getenv`: the value of the variable, or the empty string when it is unset. -/
def Getenv (env : Env) (key : String) : GoString := (env key).getD []

/-! ## sarama configuration -/

/-- Type `sarama.RequiredAcks`. -/
inductive RequiredAcks where
  | NoResponse
  | WaitForLocal
  | WaitForAll
deriving Repr, DecidableEq

/-- Type `sarama.CompressionCodec`. -/
inductive CompressionCodec where
  | CompressionNone
  | CompressionGZIP
  | CompressionSnappy
  | CompressionLZ4
deriving Repr, DecidableEq

/-- Type `sarama.KafkaVersion`: four version components. -/
structure KafkaVersion where
  major : Nat
  minor : Nat
  veryMinor : Nat
  patch : Nat
deriving Repr, DecidableEq

/-- Constant `sarama.V0_8_2_0`. -/
def V0_8_2_0 : KafkaVersion := ⟨0, 8, 2, 0⟩

/-- Constant `sarama.V0_11_0_0`. -/
def V0_11_0_0 : KafkaVersion := ⟨0, 11, 0, 0⟩

/-- The fields of `sarama.Config` that `conf()` assigns. -/
structure Config where
  ProducerRequiredAcks : RequiredAcks
  ProducerReturnSuccesses : Bool
  ProducerReturnErrors : Bool
  ProducerCompression : CompressionCodec
  ChannelBufferSize : Nat
  Version : KafkaVersion
deriving Repr, DecidableEq

/-- The value of `sarama.NewConfig()` on the fields above (the library's defaults). -/
def NewConfig : Config :=
  { ProducerRequiredAcks := .WaitForLocal
    ProducerReturnSuccesses := false
    ProducerReturnErrors := true
    ProducerCompression := .CompressionNone
    ChannelBufferSize := 256
    Version := V0_8_2_0 }

/-- Function `conf()` of `producer.go`. -/
def conf : Config :=
  let conf := NewConfig
  let conf := { conf with ProducerRequiredAcks := .NoResponse }
  let conf := { conf with ProducerReturnSuccesses := false }
  let conf := { conf with ProducerReturnErrors := true }
  let conf := { conf with ProducerCompression := .CompressionGZIP }
  let conf := { conf with ChannelBufferSize := 256 }
  let conf := { conf with Version := V0_11_0_0 }
  conf

/-! ## Clock readings and `time.RFC3339` -/

/-- A clock reading (`time.Time`), by its civil date, wall clock and zone offset
(seconds east of UTC), the quantities `Format` prints. -/
structure Time where
  year : Int
  month : Nat
  day : Nat
  hour : Nat
  minute : Nat
  second : Nat
  offset : Int
deriving Repr, DecidableEq

/-- The decimal digits of `u`, most significant first, by the loop of `appendInt`
(`for u >= 10`); `fuel` bounds the number of iterations. -/
def decimalDigits : Nat → Nat → GoString
  | 0, u => [Fin.ofNat (0x30 + u % 10)]
  | fuel + 1, u =>
    if u ≥ 10 then decimalDigits fuel (u / 10) ++ [Fin.ofNat (0x30 + u % 10)]
    else [Fin.ofNat (0x30 + u)]

/-- Go's `appendInt(b, x, width)` of package `time`: a minus sign for a negative `x`,
then the decimal digits of the magnitude, padded with zeros on the left to `width`. -/
def appendInt (x : Int) (width : Nat) : GoString :=
  let u := x.natAbs
  let digits := decimalDigits u u
  (if x < 0 then ascii "-" else []) ++ List.replicate (width - digits.length) 0x30 ++ digits

/-- The zone suffix `Z07:00` of `time.RFC3339`: `Z` for offset zero, else the sign and
the offset in hours and minutes. -/
def formatZone (offset : Int) : GoString :=
  if offset = 0 then ascii "Z"
  else
    let zone := Int.tdiv offset 60
    let sign := if zone < 0 then ascii "-" else ascii "+"
    let zone := if zone < 0 then -zone else zone
    sign ++ appendInt (Int.tdiv zone 60) 2 ++ ascii ":" ++ appendInt (Int.tmod zone 60) 2

/-- Go's `t.Format(time.RFC3339)`, layout `2006-01-02T15:04:05Z07:00`. -/
def formatRFC3339 (t : Time) : GoString :=
  appendInt t.year 4 ++ ascii "-" ++ appendInt t.month 2 ++ ascii "-" ++ appendInt t.day 2
    ++ ascii "T" ++ appendInt t.hour 2 ++ ascii ":" ++ appendInt t.minute 2 ++ ascii ":"
    ++ appendInt t.second 2 ++ formatZone t.offset

/-! ## Package `unicode/utf8` -/

/-- Constant `utf8.RuneError`, the replacement character U+FFFD. -/
def RuneError : Nat := 0xFFFD

/-- Constant `utf8.RuneSelf`: bytes below it stand for themselves. -/
def RuneSelf : Nat := 0x80

/-- Constant `utf8.MaxRune`. -/
def MaxRune : Nat := 0x10FFFF

def surrogateMin : Nat := 0xD800

def surrogateMax : Nat := 0xDFFF

def maskx : Nat := 0x3F

def mask2 : Nat := 0x1F

def mask3 : Nat := 0x0F

def mask4 : Nat := 0x07

def locb : Nat := 0x80

def hicb : Nat := 0xBF

def rune1Max : Nat := 0x7F

def rune2Max : Nat := 0x7FF

def rune3Max : Nat := 0xFFFF

/-- An entry of the table `first` of package `utf8`, with its row of `acceptRanges`:
`as` for an ASCII byte, `xx` for a byte that cannot start a sequence, and for a leading
byte the length of the sequence and the range accepted for the second byte. -/
inductive FirstByte where
  | as
  | xx
  | lead (size : Nat) (lo : Nat) (hi : Nat)
deriving Repr, DecidableEq

/-- The table `first` of package `utf8`. -/
def first (b : Byte) : FirstByte :=
  if b.val < 0x80 then .as
  else if b.val < 0xC2 then .xx
  else if b.val < 0xE0 then .lead 2 locb hicb
  else if b.val = 0xE0 then .lead 3 0xA0 hicb
  else if b.val < 0xED then .lead 3 locb hicb
  else if b.val = 0xED then .lead 3 locb 0x9F
  else if b.val < 0xF0 then .lead 3 locb hicb
  else if b.val = 0xF0 then .lead 4 0x90 hicb
  else if b.val < 0xF4 then .lead 4 locb hicb
  else if b.val = 0xF4 then .lead 4 locb 0x8F
  else .xx

/-- Go's `utf8.DecodeRuneInString` (and `utf8.DecodeRune`): the first rune of `s` and
the number of bytes it takes; `(RuneError, 1)` for an encoding that is not valid and
`(RuneError, 0)` for the empty string. -/
def DecodeRune (s : GoString) : Nat × Nat :=
  match s with
  | [] => (RuneError, 0)
  | s0 :: rest =>
    match first s0 with
    | .as => (s0.val, 1)
    | .xx => (RuneError, 1)
    | .lead sz lo hi =>
      if s.length < sz then (RuneError, 1)
      else
        match rest with
        | [] => (RuneError, 1)
        | s1 :: rest =>
          if s1.val < lo ∨ hi < s1.val then (RuneError, 1)
          else if sz ≤ 2 then ((s0.val &&& mask2) <<< 6 ||| (s1.val &&& maskx), 2)
          else
            match rest with
            | [] => (RuneError, 1)
            | s2 :: rest =>
              if s2.val < locb ∨ hicb < s2.val then (RuneError, 1)
              else if sz ≤ 3 then
                ((s0.val &&& mask3) <<< 12 ||| (s1.val &&& maskx) <<< 6 ||| (s2.val &&& maskx), 3)
              else
                match rest with
                | [] => (RuneError, 1)
                | s3 :: _ =>
                  if s3.val < locb ∨ hicb < s3.val then (RuneError, 1)
                  else
                    ((s0.val &&& mask4) <<< 18 ||| (s1.val &&& maskx) <<< 12
                      ||| (s2.val &&& maskx) <<< 6 ||| (s3.val &&& maskx), 4)

/-- Conversion `byte(x)`: the low eight bits. -/
def toByte (x : Nat) : Byte := Fin.ofNat x

/-- The three bytes `EF BF BD` of U+FFFD. -/
def encodeRune3 (r : Nat) : GoString :=
  [toByte (0xE0 ||| toByte (r >>> 12)), toByte (0x80 ||| (toByte (r >>> 6) &&& maskx)),
    toByte (0x80 ||| (toByte r &&& maskx))]

/-- Go's `utf8.EncodeRune`: the UTF-8 encoding of the rune, and that of U+FFFD for a rune
out of range or a surrogate half. -/
def EncodeRune (r : Nat) : GoString :=
  if r ≤ rune1Max then [toByte r]
  else if r ≤ rune2Max then
    [toByte (0xC0 ||| toByte (r >>> 6)), toByte (0x80 ||| (toByte r &&& maskx))]
  else if r > MaxRune ∨ (surrogateMin ≤ r ∧ r ≤ surrogateMax) then encodeRune3 RuneError
  else if r ≤ rune3Max then encodeRune3 r
  else
    [toByte (0xF0 ||| toByte (r >>> 18)), toByte (0x80 ||| (toByte (r >>> 12) &&& maskx)),
      toByte (0x80 ||| (toByte (r >>> 6) &&& maskx)), toByte (0x80 ||| (toByte r &&& maskx))]

/-- Go's `utf8.ValidString`, as a loop over the string: no position decodes to
`(RuneError, 1)`. The second argument counts the bytes still to skip, those of the rune
decoded last. -/
def validLoop : GoString → Nat → Bool
  | [], _ => true
  | _ :: rest, skip + 1 => validLoop rest skip
  | b :: rest, 0 =>
    let (c, size) := DecodeRune (b :: rest)
    if c = RuneError ∧ size = 1 then false else validLoop rest (size - 1)

/-- Go's `utf8.ValidString`. -/
def ValidString (s : GoString) : Bool := validLoop s 0

/-- The string with every byte that is not part of a valid UTF-8 sequence replaced by the
encoding of U+FFFD; the second argument counts the bytes still to skip. -/
def toValidLoop : GoString → Nat → GoString
  | [], _ => []
  | _ :: rest, skip + 1 => toValidLoop rest skip
  | b :: rest, 0 =>
    let (c, size) := DecodeRune (b :: rest)
    if c = RuneError ∧ size = 1 then EncodeRune RuneError ++ toValidLoop rest 0
    else (b :: rest).take size ++ toValidLoop rest (size - 1)

/-- The string coerced to valid UTF-8, each offending byte giving one U+FFFD. -/
def toValidUTF8 (s : GoString) : GoString := toValidLoop s 0

/-! ## Package `encoding/json`, for a string value -/

/-- The byte `'"'`. -/
def quote : Byte := 0x22

/-- The byte `'\\'`. -/
def backslash : Byte := 0x5c

/-- Table `htmlSafeSet`: the ASCII bytes that a JSON string embedded in HTML holds
unescaped, all from the space on except the quote, the backslash and `&`, `<`, `>`. -/
def htmlSafeSet (b : Byte) : Bool :=
  decide (0x20 ≤ b.val ∧ b.val < 0x80 ∧ b ≠ quote ∧ b ≠ backslash
    ∧ b.val ≠ 0x26 ∧ b.val ≠ 0x3c ∧ b.val ≠ 0x3e)

/-- The string `hex` of package `json`. -/
def hex : GoString := ascii "0123456789abcdef"

/-- Indexing `hex[i]`. -/
def hexAt (i : Nat) : Byte := hex.getD i 0

/-- The loop of `encodeState.string(s, escapeHTML)` with `escapeHTML` set, as
`json.Marshal` runs it: the bytes written between the two quotes. A safe ASCII byte and a
valid multi-byte rune are copied; the quote, the backslash, control characters, `&`, `<`,
`>`, U+2028 and U+2029 are escaped; a byte that starts no valid rune is written as the
escape of U+FFFD. The second argument counts the bytes still to skip, those of the rune
decoded last (the source advances its index by the size of the rune). -/
def encodeLoop : GoString → Nat → GoString
  | [], _ => []
  | _ :: rest, skip + 1 => encodeLoop rest skip
  | b :: rest, 0 =>
    if b.val < RuneSelf then
      if htmlSafeSet b then b :: encodeLoop rest 0
      else if b = backslash ∨ b = quote then backslash :: b :: encodeLoop rest 0
      else if b.val = 0x0a then backslash :: 0x6e :: encodeLoop rest 0
      else if b.val = 0x0d then backslash :: 0x72 :: encodeLoop rest 0
      else if b.val = 0x09 then backslash :: 0x74 :: encodeLoop rest 0
      else
        ascii "\\u00" ++ hexAt (b.val >>> 4) :: hexAt (b.val &&& 0xF) :: encodeLoop rest 0
    else
      let (c, size) := DecodeRune (b :: rest)
      if c = RuneError ∧ size = 1 then ascii "\\ufffd" ++ encodeLoop rest 0
      else if c = 0x2028 ∨ c = 0x2029 then
        ascii "\\u202" ++ hexAt (c &&& 0xF) :: encodeLoop rest (size - 1)
      else (b :: rest).take size ++ encodeLoop rest (size - 1)

/-- Go's `encodeState.string`: the JSON string literal for `s`. -/
def encodeString (s : GoString) : GoString := quote :: encodeLoop s 0 ++ [quote]

/-- Go's `json.Marshal(v)` for a string `v`: it returns the string literal and no error. -/
def Marshal (v : GoString) : Except GoError GoString := .ok (encodeString v)

/-- The value of a hexadecimal digit, as in `getu4`. -/
def hexValue (c : Byte) : Option Nat :=
  if 0x30 ≤ c.val ∧ c.val ≤ 0x39 then some (c.val - 0x30)
  else if 0x61 ≤ c.val ∧ c.val ≤ 0x66 then some (c.val - 0x61 + 10)
  else if 0x41 ≤ c.val ∧ c.val ≤ 0x46 then some (c.val - 0x41 + 10)
  else none

/-- Go's `getu4`: the number written `\uXXXX` at the start of `s`, or `none` (for -1)
when `s` does not start so. -/
def getu4 (s : GoString) : Option Nat :=
  match s with
  | s0 :: s1 :: c1 :: c2 :: c3 :: c4 :: _ =>
    if s0 ≠ backslash ∨ s1.val ≠ 0x75 then none
    else
      match hexValue c1, hexValue c2, hexValue c3, hexValue c4 with
      | some d1, some d2, some d3, some d4 => some (((d1 * 16 + d2) * 16 + d3) * 16 + d4)
      | _, _, _, _ => none
  | _ => none

/-- Go's `utf16.IsSurrogate`. -/
def IsSurrogate (r : Nat) : Bool := decide (0xd800 ≤ r ∧ r < 0xe000)

/-- Go's `utf16.DecodeRune(r1, r2)`, with `none` for an `r2` of -1. -/
def utf16DecodeRune (r1 : Nat) (r2 : Option Nat) : Nat :=
  match r2 with
  | some r2 =>
    if 0xd800 ≤ r1 ∧ r1 < 0xdc00 ∧ 0xdc00 ≤ r2 ∧ r2 < 0xe000 then
      ((r1 - 0xd800) <<< 10 ||| (r2 - 0xdc00)) + 0x10000
    else RuneError
  | none => RuneError

/-- The loop of Go's `unquoteBytes` over the bytes between the quotes: escapes are
resolved, a raw quote or control character is refused, and other bytes are decoded and
encoded again as UTF-8. The second argument counts the bytes still to skip, those of the
escape or rune read last. -/
def unquoteLoop : GoString → Nat → Option GoString
  | [], _ => some []
  | _ :: rest, skip + 1 => unquoteLoop rest skip
  | c :: rest, 0 =>
    if c = backslash then
      match rest with
      | [] => none
      | e :: _ =>
        if e = quote ∨ e = backslash ∨ e.val = 0x2f ∨ e.val = 0x27 then
          (unquoteLoop rest 1).map (fun t => e :: t)
        else if e.val = 0x62 then (unquoteLoop rest 1).map (fun t => 0x08 :: t)
        else if e.val = 0x66 then (unquoteLoop rest 1).map (fun t => 0x0c :: t)
        else if e.val = 0x6e then (unquoteLoop rest 1).map (fun t => 0x0a :: t)
        else if e.val = 0x72 then (unquoteLoop rest 1).map (fun t => 0x0d :: t)
        else if e.val = 0x74 then (unquoteLoop rest 1).map (fun t => 0x09 :: t)
        else if e.val = 0x75 then
          match getu4 (c :: rest) with
          | none => none
          | some rr =>
            if IsSurrogate rr then
              let dec := utf16DecodeRune rr (getu4 (rest.drop 5))
              if dec ≠ RuneError then
                (unquoteLoop rest 11).map (fun t => EncodeRune dec ++ t)
              else (unquoteLoop rest 5).map (fun t => EncodeRune RuneError ++ t)
            else (unquoteLoop rest 5).map (fun t => EncodeRune rr ++ t)
        else none
    else if c = quote ∨ c.val < 0x20 then none
    else if c.val < RuneSelf then (unquoteLoop rest 0).map (fun t => c :: t)
    else
      let (rr, size) := DecodeRune (c :: rest)
      (unquoteLoop rest (size - 1)).map (fun t => EncodeRune rr ++ t)

/-- Go's `unquoteBytes`, the decoding of a JSON string literal: the argument must be
enclosed in quotes, and what stands between them is decoded by `unquoteLoop`. -/
def unquoteBytes (s : GoString) : Option GoString :=
  if s.length < 2 ∨ s.head? ≠ some quote ∨ s.getLast? ≠ some quote then none
  else unquoteLoop s.tail.dropLast 0

/-! ## The underlying producer and the adapter -/

/-- Type `sarama.ProducerMessage`, on the fields `Send` fills in. -/
structure ProducerMessage where
  Topic : GoString
  Key : Option GoString
  Value : GoString
  Timestamp : Time
deriving Repr, DecidableEq

/-- The observable state of a `sarama.AsyncProducer`: the records received on `Input()`
(oldest first), the notifications pending on `Errors()`, the number of calls of `Close()`
so far and the error that `Close()` returns (`none` for nil). -/
structure SaramaProducer where
  input : List ProducerMessage
  errors : List GoError
  closeCalls : Nat
  closeResult : Option GoError
deriving Repr, DecidableEq

/-- Struct `AsyncProducer` of `producer.go`; `prodr` is `none` for a nil interface. -/
structure AsyncProducer where
  loggerID : GoString
  conf : Config
  brokers : List GoString
  prodr : Option SaramaProducer
deriving Repr, DecidableEq

/-- Variable `topic` of `producer.go`. -/
def topic : GoString := ascii "logs"

/-- Function `getBrokersFromEnv` of `producer.go`. -/
def getBrokersFromEnv (env : Env) : Except GoError (List GoString) :=
  let brokersStr := Getenv env "KAFKA_BROKERS"
  if brokersStr.length = 0 then .error "NO_KAFKA_BROKERS_ARG_IN_ENV"
  else .ok (Split comma brokersStr)

/-- The type of the variable `GetSaramaProducer`: a function that is handed the adapter
and answers with the value it leaves in the field `prodr` and the error it returns
(`none` for nil). As in the initial value of the variable, the field `prodr` is the only
part of the adapter that the function assigns. -/
abbrev ProducerFactory := AsyncProducer → Option SaramaProducer × Option GoError

/-- The initial value of the variable `GetSaramaProducer`; `newAsyncProducer` stands for
`sarama.NewAsyncProducer`, which answers with a producer and an error. -/
def GetSaramaProducer
    (newAsyncProducer : List GoString → Config → Option SaramaProducer × Option GoError) :
    ProducerFactory :=
  fun p =>
    let (prodr, err) := newAsyncProducer p.brokers p.conf
    match err with
    | some err => (prodr, some err)
    | none => (prodr, none)

/-- The stub that `kafkalog_test.go` installs in `BeforeEach`: it returns nil and leaves
the adapter as it is. -/
def stubGetSaramaProducer : ProducerFactory := fun p => (p.prodr, none)

/-- The two goroutines that `init` starts. -/
inductive Goroutine where
  | signalLoop
  | errorDrain
deriving Repr, DecidableEq

/-- The signals that `init` subscribes to. -/
inductive Signal where
  | Interrupt
  | Kill
deriving Repr, DecidableEq

/-- Method `init` of `producer.go`: it starts the signal loop and the error drain and
returns at once. Both closures hold the adapter and read `prodr` when they run. -/
def AsyncProducer.init (_p : AsyncProducer) : List Goroutine :=
  [.signalLoop, .errorDrain]

/-- The first goroutine of `init`, from the moment it receives a signal from `c`:
it closes the producer, then ends the process, through `log.Fatal` for a close error and
through `os.Exit(1)` otherwise. -/
def AsyncProducer.signalLoop (p : AsyncProducer) (_sig : Signal) : Outcome AsyncProducer :=
  match p.prodr with
  | none => .panicked nilDereference
  | some prodr =>
    let p := { p with prodr := some { prodr with closeCalls := prodr.closeCalls + 1 } }
    match prodr.closeResult with
    | some err => .exited ["Error closing kafka AsyncProducer" ++ err] 1 p
    | none => .exited ["kafka AsyncProducer producer closed"] 1 p

/-- The second goroutine of `init`: it logs each notification of `Errors()` in turn. -/
def AsyncProducer.errorDrain (p : AsyncProducer) : Outcome AsyncProducer :=
  match p.prodr with
  | none => .panicked nilDereference
  | some prodr =>
    .returned (prodr.errors.map (fun err => "Failed to write message to topic:  " ++ err))
      { p with prodr := some { prodr with errors := [] } }

/-- A goroutine of `init` run on the adapter (the signal loop on receipt of `sig`). -/
def Goroutine.run (g : Goroutine) (p : AsyncProducer) (sig : Signal) : Outcome AsyncProducer :=
  match g with
  | .signalLoop => p.signalLoop sig
  | .errorDrain => p.errorDrain

/-- Function `NewAsyncProducer` of `producer.go`, under environment `env` and with
`factory` the current value of the variable `GetSaramaProducer`. On success it returns the
adapter together with the goroutines that `init` started. -/
def NewAsyncProducer (env : Env) (factory : ProducerFactory) (loggerID : GoString) :
    Outcome (AsyncProducer × List Goroutine) :=
  let ap : AsyncProducer := { loggerID := loggerID, conf := conf, brokers := [], prodr := none }
  match getBrokersFromEnv env with
  | .error err => .panicked err
  | .ok brokers =>
    let ap := { ap with brokers := brokers }
    match factory ap with
    | (_, some err) => .panicked err
    | (prodr, none) =>
      let ap := { ap with prodr := prodr }
      .returned [] (ap, ap.init)

/-- Method `Close` of `producer.go`: it calls `Close()` of the producer, and for an error
ends in `log.Fatal`, which logs its arguments and exits with status 1. -/
def AsyncProducer.Close (p : AsyncProducer) : Outcome AsyncProducer :=
  match p.prodr with
  | none => .panicked nilDereference
  | some prodr =>
    let p := { p with prodr := some { prodr with closeCalls := prodr.closeCalls + 1 } }
    match prodr.closeResult with
    | some err => .exited ["Error closing kafka AsyncProducer" ++ err] 1 p
    | none => .returned [] p

/-- Method `Send` of `producer.go`, with the encoder left open: `marshal` stands for
`json.Marshal`, `now1` and `now2` are the two readings of `time.Now()`. The format
`"[%s] [%s] %s"` of `fmt.Sprintf` concatenates its three string arguments between the
brackets and blanks; the send on `Input()` appends the record to the input queue. -/
def AsyncProducer.SendWith (marshal : GoString → Except GoError GoString)
    (p : AsyncProducer) (now1 now2 : Time) (msg : GoString) : Outcome AsyncProducer :=
  let m := ascii "[" ++ formatRFC3339 now1 ++ ascii "] [" ++ p.loggerID ++ ascii "] " ++ msg
  match marshal m with
  | .error err => .returned ["Failed json encoding kafka log msg:  " ++ err] p
  | .ok msgBytes =>
    let msgLog : ProducerMessage :=
      { Topic := topic, Key := none, Timestamp := now2, Value := msgBytes }
    match p.prodr with
    | none => .panicked nilDereference
    | some prodr => .returned [] { p with prodr := some { prodr with input := prodr.input ++ [msgLog] } }

/-- Method `Send` of `producer.go`: `SendWith` at the encoder `json.Marshal`. -/
def AsyncProducer.Send (p : AsyncProducer) (now1 now2 : Time) (msg : GoString) :
    Outcome AsyncProducer :=
  p.SendWith Marshal now1 now2 msg

/-! ## Callers and sample values -/

/-- Successive calls of `Send` by one caller, each with its message and its two clock
readings; the lines logged are collected, and a call that does not return ends the run. -/
def sendAll (p : AsyncProducer) : List (Time × Time × GoString) → Outcome AsyncProducer
  | [] => .returned [] p
  | (now1, now2, msg) :: calls =>
    match p.Send now1 now2 msg with
    | .returned log p1 =>
      match sendAll p1 calls with
      | .returned logs p2 => .returned (log ++ logs) p2
      | .panicked v => .panicked v
      | .exited logs code p2 => .exited (log ++ logs) code p2
    | .panicked v => .panicked v
    | .exited log code p1 => .exited log code p1

/-- The record that `Send` builds for a message. -/
def record (loggerID : GoString) (call : Time × Time × GoString) : ProducerMessage :=
  { Topic := topic
    Key := none
    Value := encodeString
      (ascii "[" ++ formatRFC3339 call.1 ++ ascii "] [" ++ loggerID ++ ascii "] " ++ call.2.2)
    Timestamp := call.2.1 }

/-- The value of `KAFKA_BROKERS` in `kafkalog_test.go`. -/
def brokersEnvVar : GoString := ascii "127.0.0.1:9092,127.0.0.1:9092"

/-- An environment that sets `KAFKA_BROKERS` to `brokersEnvVar` and nothing else. -/
def testEnv : Env := fun key => if key = "KAFKA_BROKERS" then some brokersEnvVar else none

/-- An environment with no variable set. -/
def emptyEnv : Env := fun _ => none

/-- The failing stub of `kafkalog_test.go`. -/
def failingGetSaramaProducer : ProducerFactory := fun p => (p.prodr, some "mock error")

/-- A producer that has received nothing and whose `Close()` returns nil. -/
def idleProducer : SaramaProducer :=
  { input := [], errors := [], closeCalls := 0, closeResult := none }

/-- A producer whose `Close()` returns an error. -/
def brokenProducer : SaramaProducer :=
  { input := [], errors := [], closeCalls := 0, closeResult := some "mock close error" }

/-- A construction function that stores `idleProducer` and returns nil. -/
def idleGetSaramaProducer : ProducerFactory := fun _ => (some idleProducer, none)

/-- A clock reading: 2018-03-09 14:05:07 UTC. -/
def clock0 : Time :=
  { year := 2018, month := 3, day := 9, hour := 14, minute := 5, second := 7, offset := 0 }

/-- An adapter as `NewAsyncProducer` builds it under `testEnv`, holding `prodr`. -/
def testAdapter (prodr : Option SaramaProducer) : AsyncProducer :=
  { loggerID := ascii "testingLogger", conf := conf, brokers := Split comma brokersEnvVar,
    prodr := prodr }

/-- An encoder that fails on every input. -/
def failingMarshal : GoString → Except GoError GoString := fun _ => .error "mock encoding error"

/-! ## Predicates used in the proofs -/

/-- The bytes `chunk` are the UTF-8 encoding, two to four bytes long, of the rune `c`:
they decode to `c` whatever follows, and `c` encodes to them. -/
def IsSeq (chunk : GoString) (c : Nat) : Prop :=
  (∀ tail, DecodeRune (chunk ++ tail) = (c, chunk.length))
  ∧ 2 ≤ chunk.length ∧ EncodeRune c = chunk ∧ (∀ x ∈ chunk, 0x80 ≤ x.val) ∧ 0x80 ≤ c

/-- All bytes of the string are ASCII. -/
def IsAscii (s : GoString) : Prop := ∀ x ∈ s, x.val < 0x80

/-! ## Sample evaluations of the library functions -/

theorem formatRFC3339_utc : formatRFC3339 clock0 = ascii "2018-03-09T14:05:07Z" := by
  decide

theorem formatRFC3339_west :
    formatRFC3339 { clock0 with offset := -19800 } = ascii "2018-03-09T14:05:07-05:30" := by
  decide

theorem Split_brokersEnvVar :
    Split comma brokersEnvVar = [ascii "127.0.0.1:9092", ascii "127.0.0.1:9092"] := by
  decide

theorem Split_empty_pieces :
    Split comma (ascii ",a,,b,") = [ascii "", ascii "a", ascii "", ascii "b", ascii ""] := by
  decide

theorem DecodeRune_samples :
    DecodeRune (ascii "A") = (0x41, 1) ∧ DecodeRune [0xc3, 0xa9] = (0xe9, 2)
      ∧ DecodeRune [0xe2, 0x82, 0xac] = (0x20ac, 3)
      ∧ DecodeRune [0xf0, 0x9f, 0x98, 0x80] = (0x1f600, 4)
      ∧ DecodeRune [0xc3] = (RuneError, 1) ∧ DecodeRune [0xc0, 0x80] = (RuneError, 1)
      ∧ DecodeRune [0xed, 0xa0, 0x80] = (RuneError, 1)
      ∧ DecodeRune [0xef, 0xbf, 0xbd] = (RuneError, 3) := by
  decide

theorem EncodeRune_samples :
    EncodeRune 0x41 = ascii "A" ∧ EncodeRune 0xe9 = [0xc3, 0xa9]
      ∧ EncodeRune 0x20ac = [0xe2, 0x82, 0xac] ∧ EncodeRune 0x1f600 = [0xf0, 0x9f, 0x98, 0x80]
      ∧ EncodeRune 0xd800 = [0xef, 0xbf, 0xbd] ∧ EncodeRune 0x110000 = [0xef, 0xbf, 0xbd] := by
  decide

theorem encodeString_samples :
    encodeString (ascii "hello") = ascii "\"hello\""
      ∧ encodeString (ascii "a<b>&\"\\\n\t") = ascii "\"a\\u003cb\\u003e\\u0026\\\"\\\\\\n\\t\""
      ∧ encodeString [0x01, 0x7f] = ascii "\"\\u0001" ++ [0x7f, quote]
      ∧ encodeString [0xe2, 0x80, 0xa8] = ascii "\"\\u2028\""
      ∧ encodeString [0xc3, 0xa9, 0xff] = quote :: 0xc3 :: 0xa9 :: ascii "\\ufffd\"" := by
  decide

theorem unquoteBytes_samples :
    unquoteBytes (ascii "\"\\u00e9 \\ud83d\\ude00 \\/\"")
        = some ([0xc3, 0xa9] ++ ascii " " ++ [0xf0, 0x9f, 0x98, 0x80] ++ ascii " /")
      ∧ unquoteBytes (ascii "\"\\ud83d x\"") = some ([0xef, 0xbf, 0xbd] ++ ascii " x")
      ∧ unquoteBytes (ascii "\"a\"b\"") = none
      ∧ unquoteBytes (ascii "\"a\nb\"") = none
      ∧ unquoteBytes (ascii "\"\\x\"") = none
      ∧ unquoteBytes (ascii "hello") = none := by
  decide

/-! ## Bit operations as arithmetic -/

theorem and_maskx (x : Nat) : x &&& maskx = x % 64 := Nat.and_pow_two_sub_one_eq_mod x 6
theorem and_mask2 (x : Nat) : x &&& mask2 = x % 32 := Nat.and_pow_two_sub_one_eq_mod x 5
theorem and_mask3 (x : Nat) : x &&& mask3 = x % 16 := Nat.and_pow_two_sub_one_eq_mod x 4
theorem and_mask4 (x : Nat) : x &&& mask4 = x % 8 := Nat.and_pow_two_sub_one_eq_mod x 3
theorem and_0xF (x : Nat) : x &&& 0xF = x % 16 := Nat.and_pow_two_sub_one_eq_mod x 4

theorem shl_or (k a b : Nat) (h : b < 2 ^ k) : a <<< k ||| b = a * 2 ^ k + b := by
  rw [Nat.shiftLeft_eq, Nat.mul_comm, ← Nat.mul_add_lt_is_or h]

theorem rune2_eq (a b : Nat) :
    (a &&& mask2) <<< 6 ||| (b &&& maskx) = (a % 32) * 64 + b % 64 := by
  rw [and_mask2, and_maskx, shl_or 6 _ _ (by omega)]
  omega

theorem rune3_eq (a b c : Nat) :
    (a &&& mask3) <<< 12 ||| (b &&& maskx) <<< 6 ||| (c &&& maskx)
      = (a % 16) * 4096 + (b % 64) * 64 + c % 64 := by
  rw [and_mask3, and_maskx, and_maskx, Nat.or_assoc, shl_or 6 _ _ (by omega),
    shl_or 12 _ _ (by omega)]
  omega

theorem rune4_eq (a b c d : Nat) :
    (a &&& mask4) <<< 18 ||| (b &&& maskx) <<< 12 ||| (c &&& maskx) <<< 6 ||| (d &&& maskx)
      = (a % 8) * 262144 + (b % 64) * 4096 + (c % 64) * 64 + d % 64 := by
  rw [and_mask4, and_maskx, and_maskx, and_maskx, Nat.or_assoc, Nat.or_assoc,
    shl_or 6 _ _ (by omega), shl_or 12 _ _ (by omega), shl_or 18 _ _ (by omega)]
  omega

/-- or of a tag with a payload below the tag's lowest set bit -/
theorem tag_or (k t b : Nat) (h : b < 2 ^ k) : (t * 2 ^ k) ||| b = t * 2 ^ k + b := by
  rw [Nat.mul_comm, ← Nat.mul_add_lt_is_or h]

theorem toByte_val (x : Nat) : (toByte x).val = x % 256 := rfl

theorem cont_byte (x : Nat) : toByte (0x80 ||| ((toByte x).val &&& maskx)) = toByte (0x80 + x % 64) := by
  rw [and_maskx, toByte_val]
  have h : x % 256 % 64 = x % 64 := by omega
  have := tag_or 6 2 (x % 64) (by omega)
  norm_num at this
  rw [h, this]

theorem lead2_byte (x : Nat) (h : x < 32) : toByte (0xC0 ||| (toByte x).val) = toByte (0xC0 + x) := by
  rw [toByte_val]
  have := tag_or 5 6 (x % 256) (by omega)
  norm_num at this
  rw [this]; congr 1; omega

theorem lead3_byte (x : Nat) (h : x < 16) : toByte (0xE0 ||| (toByte x).val) = toByte (0xE0 + x) := by
  rw [toByte_val]
  have := tag_or 4 14 (x % 256) (by omega)
  norm_num at this
  rw [this]; congr 1; omega

theorem lead4_byte (x : Nat) (h : x < 8) : toByte (0xF0 ||| (toByte x).val) = toByte (0xF0 + x) := by
  rw [toByte_val]
  have := tag_or 3 30 (x % 256) (by omega)
  norm_num at this
  rw [this]; congr 1; omega

theorem toByte_of_val (b : Byte) (n : Nat) (h : n = b.val) : toByte n = b := by
  apply Fin.ext; rw [toByte_val]; omega

theorem EncodeRune_two (c : Nat) (h1 : 0x80 ≤ c) (h2 : c ≤ 0x7FF) :
    EncodeRune c = [toByte (0xC0 + c / 64), toByte (0x80 + c % 64)] := by
  unfold EncodeRune rune1Max rune2Max
  rw [if_neg (by omega), if_pos (by omega), Nat.shiftRight_eq_div_pow, cont_byte, lead2_byte _ (by omega)]

theorem encodeRune3_eq (c : Nat) (h2 : c ≤ 0xFFFF) :
    encodeRune3 c = [toByte (0xE0 + c / 4096), toByte (0x80 + c / 64 % 64), toByte (0x80 + c % 64)] := by
  unfold encodeRune3
  rw [Nat.shiftRight_eq_div_pow, Nat.shiftRight_eq_div_pow, cont_byte, cont_byte, lead3_byte _ (by omega)]

theorem EncodeRune_three (c : Nat) (h1 : 0x800 ≤ c) (h2 : c ≤ 0xFFFF) (h3 : c < 0xD800 ∨ 0xDFFF < c) :
    EncodeRune c = [toByte (0xE0 + c / 4096), toByte (0x80 + c / 64 % 64), toByte (0x80 + c % 64)] := by
  unfold EncodeRune rune1Max rune2Max rune3Max MaxRune surrogateMin surrogateMax
  rw [if_neg (by omega), if_neg (by omega), if_neg (by omega), if_pos (by omega), encodeRune3_eq c h2]

theorem EncodeRune_four (c : Nat) (h1 : 0x10000 ≤ c) (h2 : c ≤ 0x10FFFF) :
    EncodeRune c = [toByte (0xF0 + c / 262144), toByte (0x80 + c / 4096 % 64),
      toByte (0x80 + c / 64 % 64), toByte (0x80 + c % 64)] := by
  unfold EncodeRune rune1Max rune2Max rune3Max MaxRune surrogateMin surrogateMax
  rw [if_neg (by omega), if_neg (by omega), if_neg (by omega), if_neg (by omega)]
  rw [Nat.shiftRight_eq_div_pow, Nat.shiftRight_eq_div_pow, Nat.shiftRight_eq_div_pow,
    cont_byte, cont_byte, cont_byte, lead4_byte _ (by omega)]

/-! ## Decoding a rune -/

theorem first_as (b : Byte) : first b = .as ↔ b.val < 0x80 := by
  unfold first locb hicb
  constructor
  · intro h
    by_contra hc
    rw [if_neg hc] at h
    repeat' split at h
    all_goals cases h
  · intro h
    rw [if_pos h]

theorem first_lead (b : Byte) (sz lo hi : Nat) (h : first b = .lead sz lo hi) :
    (0xC2 ≤ b.val ∧ b.val ≤ 0xF4)
    ∧ (sz = 2 ∨ sz = 3 ∨ sz = 4)
    ∧ (sz = 2 → b.val < 0xE0) ∧ (sz = 3 → 0xE0 ≤ b.val ∧ b.val < 0xF0) ∧ (sz = 4 → 0xF0 ≤ b.val)
    ∧ (0x80 ≤ lo ∧ hi ≤ 0xBF)
    ∧ (b.val = 0xE0 → 0xA0 ≤ lo) ∧ (b.val = 0xF0 → 0x90 ≤ lo)
    ∧ (b.val = 0xED → hi ≤ 0x9F) ∧ (b.val = 0xF4 → hi ≤ 0x8F) := by
  unfold first locb hicb at h
  repeat' split at h
  all_goals cases h
  all_goals refine ⟨?_, ?_, ?_, ?_, ?_, ?_, ?_, ?_, ?_, ?_⟩
  all_goals omega

theorem DecodeRune_two (s0 s1 : Byte) (tail : GoString) (lo hi : Nat)
    (h : first s0 = .lead 2 lo hi) (h1 : lo ≤ s1.val) (h2 : s1.val ≤ hi) :
    DecodeRune (s0 :: s1 :: tail) = ((s0.val % 32) * 64 + s1.val % 64, 2) := by
  unfold DecodeRune
  simp only [h, List.length_cons]
  rw [if_neg (by omega), if_neg (by omega), if_pos (by omega), rune2_eq]

theorem DecodeRune_three (s0 s1 s2 : Byte) (tail : GoString) (lo hi : Nat)
    (h : first s0 = .lead 3 lo hi) (h1 : lo ≤ s1.val) (h2 : s1.val ≤ hi)
    (h3 : 0x80 ≤ s2.val) (h4 : s2.val ≤ 0xBF) :
    DecodeRune (s0 :: s1 :: s2 :: tail)
      = ((s0.val % 16) * 4096 + (s1.val % 64) * 64 + s2.val % 64, 3) := by
  unfold DecodeRune locb hicb
  simp only [h, List.length_cons]
  rw [if_neg (by omega), if_neg (by omega), if_neg (by omega), if_neg (by omega),
    if_pos (by omega), rune3_eq]

theorem DecodeRune_four (s0 s1 s2 s3 : Byte) (tail : GoString) (lo hi : Nat)
    (h : first s0 = .lead 4 lo hi) (h1 : lo ≤ s1.val) (h2 : s1.val ≤ hi)
    (h3 : 0x80 ≤ s2.val) (h4 : s2.val ≤ 0xBF) (h5 : 0x80 ≤ s3.val) (h6 : s3.val ≤ 0xBF) :
    DecodeRune (s0 :: s1 :: s2 :: s3 :: tail)
      = ((s0.val % 8) * 262144 + (s1.val % 64) * 4096 + (s2.val % 64) * 64 + s3.val % 64, 4) := by
  unfold DecodeRune locb hicb
  simp only [h, List.length_cons]
  rw [if_neg (by omega), if_neg (by omega), if_neg (by omega), if_neg (by omega),
    if_neg (by omega), if_neg (by omega), rune4_eq]

/-- Inversion: a leading byte either fails to decode or is followed by continuation
bytes in range. -/
theorem DecodeRune_lead (s0 : Byte) (rest : GoString) (sz lo hi : Nat)
    (h : first s0 = .lead sz lo hi) :
    DecodeRune (s0 :: rest) = (RuneError, 1)
    ∨ (sz = 2 ∧ ∃ s1 t, rest = s1 :: t ∧ lo ≤ s1.val ∧ s1.val ≤ hi)
    ∨ (sz = 3 ∧ ∃ s1 s2 t, rest = s1 :: s2 :: t ∧ lo ≤ s1.val ∧ s1.val ≤ hi
        ∧ 0x80 ≤ s2.val ∧ s2.val ≤ 0xBF)
    ∨ (sz = 4 ∧ ∃ s1 s2 s3 t, rest = s1 :: s2 :: s3 :: t ∧ lo ≤ s1.val ∧ s1.val ≤ hi
        ∧ 0x80 ≤ s2.val ∧ s2.val ≤ 0xBF ∧ 0x80 ≤ s3.val ∧ s3.val ≤ 0xBF) := by
  have hsz : sz = 2 ∨ sz = 3 ∨ sz = 4 := by
    have := first_lead s0 sz lo hi h
    omega
  rcases rest with _ | ⟨s1, rest⟩
  · left; unfold DecodeRune; simp only [h]; split_ifs <;> rfl
  by_cases c1 : s1.val < lo ∨ hi < s1.val
  · left; unfold DecodeRune; simp only [h]; rw [if_pos c1]; split_ifs <;> rfl
  rcases hsz with rfl | hsz
  · right; left; exact ⟨rfl, s1, rest, rfl, by omega, by omega⟩
  rcases rest with _ | ⟨s2, rest⟩
  · left; unfold DecodeRune; simp only [h, List.length_cons, List.length_nil]
    rw [if_neg c1]; split_ifs <;> first | rfl | omega
  by_cases c2 : s2.val < 0x80 ∨ 0xBF < s2.val
  · left; unfold DecodeRune locb hicb; simp only [h]; rw [if_neg c1, if_pos c2]
    split_ifs <;> first | rfl | omega
  rcases hsz with rfl | rfl
  · right; right; left; exact ⟨rfl, s1, s2, rest, rfl, by omega, by omega, by omega, by omega⟩
  rcases rest with _ | ⟨s3, rest⟩
  · left; unfold DecodeRune; simp only [h, List.length_cons, List.length_nil]
    rw [if_neg c1]; split_ifs <;> first | rfl | omega
  by_cases c3 : s3.val < 0x80 ∨ 0xBF < s3.val
  · left; unfold DecodeRune locb hicb; simp only [h]; rw [if_neg c1, if_neg c2, if_pos c3]
    split_ifs <;> first | rfl | omega
  · right; right; right
    exact ⟨rfl, s1, s2, s3, rest, rfl, by omega, by omega, by omega, by omega, by omega, by omega⟩

/-! ## Decoding and encoding a rune agree -/

theorem DecodeRune_as (b : Byte) (rest : GoString) (h : b.val < 0x80) :
    DecodeRune (b :: rest) = (b.val, 1) := by
  unfold DecodeRune
  simp only [(first_as b).2 h]

theorem DecodeRune_cases (b : Byte) (rest : GoString) (hb : 0x80 ≤ b.val) :
    DecodeRune (b :: rest) = (RuneError, 1)
    ∨ ∃ chunk c rest1, b :: rest = chunk ++ rest1 ∧ IsSeq chunk c := by
  rcases hf : first b with _ | _ | ⟨sz, lo, hi⟩
  · have := (first_as b).1 hf
    omega
  · left; unfold DecodeRune; simp only [hf]
  have hl := first_lead b sz lo hi hf
  rcases DecodeRune_lead b rest sz lo hi hf with h | ⟨rfl, s1, t, rfl, h1, h2⟩
    | ⟨rfl, s1, s2, t, rfl, h1, h2, h3, h4⟩ | ⟨rfl, s1, s2, s3, t, rfl, h1, h2, h3, h4, h5, h6⟩
  · exact Or.inl h
  · right
    refine ⟨[b, s1], (b.val % 32) * 64 + s1.val % 64, t, rfl, ?_, by simp, ?_, ?_, by omega⟩
    · intro tail; exact DecodeRune_two b s1 (tail) lo hi hf h1 h2
    · rw [EncodeRune_two _ (by omega) (by omega)]
      congr 1
      · apply toByte_of_val; omega
      · congr 1; apply toByte_of_val; omega
    · intro x hx
      simp only [List.mem_cons, List.mem_singleton, List.not_mem_nil, or_false] at hx
      rcases hx with rfl | rfl <;> omega
  · right
    refine ⟨[b, s1, s2], (b.val % 16) * 4096 + (s1.val % 64) * 64 + s2.val % 64, t, rfl, ?_,
      by simp, ?_, ?_, by omega⟩
    · intro tail; exact DecodeRune_three b s1 s2 (tail) lo hi hf h1 h2 h3 h4
    · rw [EncodeRune_three _ (by omega) (by omega) (by omega)]
      congr 1
      · apply toByte_of_val; omega
      · congr 1
        · apply toByte_of_val; omega
        · congr 1; apply toByte_of_val; omega
    · intro x hx
      simp only [List.mem_cons, List.mem_singleton, List.not_mem_nil, or_false] at hx
      rcases hx with rfl | rfl | rfl <;> omega
  · right
    refine ⟨[b, s1, s2, s3],
      (b.val % 8) * 262144 + (s1.val % 64) * 4096 + (s2.val % 64) * 64 + s3.val % 64, t, rfl, ?_,
      by simp, ?_, ?_, by omega⟩
    · intro tail; exact DecodeRune_four b s1 s2 s3 (tail) lo hi hf h1 h2 h3 h4 h5 h6
    · rw [EncodeRune_four _ (by omega) (by omega)]
      congr 1
      · apply toByte_of_val; omega
      · congr 1
        · apply toByte_of_val; omega
        · congr 1
          · apply toByte_of_val; omega
          · congr 1; apply toByte_of_val; omega
    · intro x hx
      simp only [List.mem_cons, List.mem_singleton, List.not_mem_nil, or_false] at hx
      rcases hx with rfl | rfl | rfl | rfl <;> omega

/-! ## The loops over a string, one step at a time -/

theorem encodeLoop_skip (l X : GoString) : encodeLoop (l ++ X) l.length = encodeLoop X 0 := by
  induction l with
  | nil => rfl
  | cons a l ih => simpa [encodeLoop] using ih

theorem toValidLoop_skip (l X : GoString) : toValidLoop (l ++ X) l.length = toValidLoop X 0 := by
  induction l with
  | nil => rfl
  | cons a l ih => simpa [toValidLoop] using ih

theorem validLoop_skip (l X : GoString) : validLoop (l ++ X) l.length = validLoop X 0 := by
  induction l with
  | nil => rfl
  | cons a l ih => simpa [validLoop] using ih

theorem unquoteLoop_skip (l X : GoString) : unquoteLoop (l ++ X) l.length = unquoteLoop X 0 := by
  induction l with
  | nil => rfl
  | cons a l ih => simpa [unquoteLoop] using ih

theorem unquoteLoop_cons (c : Byte) (rest : GoString) :
    unquoteLoop (c :: rest) 0 =
      if c = backslash then
        match rest with
        | [] => none
        | e :: _ =>
          if e = quote ∨ e = backslash ∨ e.val = 0x2f ∨ e.val = 0x27 then
            (unquoteLoop rest 1).map (fun t => e :: t)
          else if e.val = 0x62 then (unquoteLoop rest 1).map (fun t => 0x08 :: t)
          else if e.val = 0x66 then (unquoteLoop rest 1).map (fun t => 0x0c :: t)
          else if e.val = 0x6e then (unquoteLoop rest 1).map (fun t => 0x0a :: t)
          else if e.val = 0x72 then (unquoteLoop rest 1).map (fun t => 0x0d :: t)
          else if e.val = 0x74 then (unquoteLoop rest 1).map (fun t => 0x09 :: t)
          else if e.val = 0x75 then
            match getu4 (c :: rest) with
            | none => none
            | some rr =>
              if IsSurrogate rr then
                let dec := utf16DecodeRune rr (getu4 (rest.drop 5))
                if dec ≠ RuneError then
                  (unquoteLoop rest 11).map (fun t => EncodeRune dec ++ t)
                else (unquoteLoop rest 5).map (fun t => EncodeRune RuneError ++ t)
              else (unquoteLoop rest 5).map (fun t => EncodeRune rr ++ t)
          else none
      else if c = quote ∨ c.val < 0x20 then none
      else if c.val < RuneSelf then (unquoteLoop rest 0).map (fun t => c :: t)
      else
        (unquoteLoop rest ((DecodeRune (c :: rest)).2 - 1)).map
          (fun t => EncodeRune (DecodeRune (c :: rest)).1 ++ t) := by
  rfl

/-! ### One step of each loop at a valid multi-byte sequence -/

theorem IsSeq.cons {chunk : GoString} {c : Nat} (h : IsSeq chunk c) :
    ∃ b l, chunk = b :: l ∧ 0x80 ≤ b.val ∧ l.length = chunk.length - 1 := by
  obtain ⟨_, hlen, _, hhigh, _⟩ := h
  rcases chunk with _ | ⟨b, l⟩
  · simp at hlen
  · exact ⟨b, l, rfl, hhigh b (by simp), by simp⟩

theorem validLoop_seq {chunk : GoString} {c : Nat} (h : IsSeq chunk c) (X : GoString) :
    validLoop (chunk ++ X) 0 = validLoop X 0 := by
  obtain ⟨b, l, rfl, hb, hl⟩ := h.cons
  have hd := h.1 X
  simp only [List.cons_append] at hd ⊢
  rw [validLoop, hd]
  have h2 := h.2.1
  simp only [List.length_cons] at h2 ⊢
  rw [if_neg (by omega)]
  simpa using validLoop_skip l X

theorem toValidLoop_seq {chunk : GoString} {c : Nat} (h : IsSeq chunk c) (X : GoString) :
    toValidLoop (chunk ++ X) 0 = chunk ++ toValidLoop X 0 := by
  obtain ⟨b, l, rfl, hb, hl⟩ := h.cons
  have hd := h.1 X
  simp only [List.cons_append] at hd ⊢
  rw [toValidLoop, hd]
  have h2 := h.2.1
  simp only [List.length_cons] at h2 ⊢
  rw [if_neg (by omega)]
  simp only [Nat.add_sub_cancel, List.take_succ_cons, List.cons.injEq, true_and]
  rw [toValidLoop_skip l X, List.take_left]
  rfl

theorem unquoteLoop_seq {chunk : GoString} {c : Nat} (h : IsSeq chunk c) (X : GoString) :
    unquoteLoop (chunk ++ X) 0 = (unquoteLoop X 0).map (fun t => chunk ++ t) := by
  obtain ⟨b, l, rfl, hb, hl⟩ := h.cons
  have hd := h.1 X
  have he := h.2.2.1
  simp only [List.cons_append] at hd ⊢
  have hbs : b ≠ backslash := by intro h; rw [h] at hb; exact absurd hb (by decide)
  have hq : ¬ (b = quote ∨ b.val < 0x20) := by
    rintro (h | h)
    · rw [h] at hb; exact absurd hb (by decide)
    · omega
  rw [unquoteLoop_cons, if_neg hbs, if_neg hq, if_neg (by unfold RuneSelf; omega), hd]
  simp only [List.length_cons, Nat.add_sub_cancel]
  rw [unquoteLoop_skip l X, he]
  rfl

theorem encodeLoop_cons (b : Byte) (rest : GoString) :
    encodeLoop (b :: rest) 0 =
      if b.val < RuneSelf then
        if htmlSafeSet b then b :: encodeLoop rest 0
        else if b = backslash ∨ b = quote then backslash :: b :: encodeLoop rest 0
        else if b.val = 0x0a then backslash :: 0x6e :: encodeLoop rest 0
        else if b.val = 0x0d then backslash :: 0x72 :: encodeLoop rest 0
        else if b.val = 0x09 then backslash :: 0x74 :: encodeLoop rest 0
        else
          ascii "\\u00" ++ hexAt (b.val >>> 4) :: hexAt (b.val &&& 0xF) :: encodeLoop rest 0
      else
        if (DecodeRune (b :: rest)).1 = RuneError ∧ (DecodeRune (b :: rest)).2 = 1 then
          ascii "\\ufffd" ++ encodeLoop rest 0
        else if (DecodeRune (b :: rest)).1 = 0x2028 ∨ (DecodeRune (b :: rest)).1 = 0x2029 then
          ascii "\\u202" ++ hexAt ((DecodeRune (b :: rest)).1 &&& 0xF)
            :: encodeLoop rest ((DecodeRune (b :: rest)).2 - 1)
        else (b :: rest).take (DecodeRune (b :: rest)).2
          ++ encodeLoop rest ((DecodeRune (b :: rest)).2 - 1) := by
  rfl

theorem hexValue_hexAt (i : Nat) (h : i < 16) : hexValue (hexAt i) = some i := by
  interval_cases i <;> rfl

theorem getu4_eq (d1 d2 d3 d4 : Byte) (X : GoString) (v1 v2 v3 v4 : Nat)
    (h1 : hexValue d1 = some v1) (h2 : hexValue d2 = some v2)
    (h3 : hexValue d3 = some v3) (h4 : hexValue d4 = some v4) :
    getu4 (backslash :: 0x75 :: d1 :: d2 :: d3 :: d4 :: X)
      = some (((v1 * 16 + v2) * 16 + v3) * 16 + v4) := by
  unfold getu4
  simp only [h1, h2, h3, h4]
  rw [if_neg]
  rintro (h | h)
  · exact h rfl
  · exact h rfl

theorem unquoteLoop_u4 (d1 d2 d3 d4 : Byte) (X : GoString) (rr : Nat)
    (hg : getu4 (backslash :: 0x75 :: d1 :: d2 :: d3 :: d4 :: X) = some rr)
    (hs : IsSurrogate rr = false) :
    unquoteLoop (backslash :: 0x75 :: d1 :: d2 :: d3 :: d4 :: X) 0
      = (unquoteLoop X 0).map (fun t => EncodeRune rr ++ t) := by
  rw [unquoteLoop_cons, if_pos rfl]
  simp only [hg, hs]
  rw [if_neg (by decide), if_neg (by decide), if_neg (by decide), if_neg (by decide),
    if_neg (by decide), if_neg (by decide), if_pos (by decide)]
  have := unquoteLoop_skip [0x75, d1, d2, d3, d4] X
  simp only [List.cons_append, List.nil_append, List.length_cons, List.length_nil] at this
  simp [this]

theorem EncodeRune_as (b : Byte) (h : b.val < 0x80) : EncodeRune b.val = [b] := by
  unfold EncodeRune rune1Max
  rw [if_pos (by omega), toByte_of_val b _ rfl]

theorem unquoteLoop_escape (e out : Byte) (X : GoString)
    (h : (e = quote ∨ e = backslash ∨ e.val = 0x2f ∨ e.val = 0x27) ∧ out = e
      ∨ e.val = 0x6e ∧ out = 0x0a ∨ e.val = 0x72 ∧ out = 0x0d ∨ e.val = 0x74 ∧ out = 0x09) :
    unquoteLoop (backslash :: e :: X) 0 = (unquoteLoop X 0).map (fun t => out :: t) := by
  have hs : unquoteLoop (e :: X) 1 = unquoteLoop X 0 := unquoteLoop_skip [e] X
  rw [unquoteLoop_cons, if_pos rfl]
  simp only [hs]
  rcases h with ⟨h, rfl⟩ | ⟨h, rfl⟩ | ⟨h, rfl⟩ | ⟨h, rfl⟩
  · rw [if_pos h]
  · have he : e = 0x6e := Fin.ext h
    subst he
    rw [if_neg (by decide), if_neg (by decide), if_neg (by decide), if_pos (by decide)]
  · have he : e = 0x72 := Fin.ext h
    subst he
    rw [if_neg (by decide), if_neg (by decide), if_neg (by decide), if_neg (by decide),
      if_pos (by decide)]
  · have he : e = 0x74 := Fin.ext h
    subst he
    rw [if_neg (by decide), if_neg (by decide), if_neg (by decide), if_neg (by decide),
      if_neg (by decide), if_pos (by decide)]

/-- An ASCII byte: what the encoder writes for it is decoded back to the byte. -/
theorem ascii_step (b : Byte) (hb : b.val < 0x80) :
    ∃ pre, (∀ rest, encodeLoop (b :: rest) 0 = pre ++ encodeLoop rest 0)
      ∧ ∀ X, unquoteLoop (pre ++ X) 0 = (unquoteLoop X 0).map (fun t => b :: t) := by
  have hb1 : b.val < RuneSelf := hb
  by_cases hsafe : htmlSafeSet b = true
  · refine ⟨[b], fun rest => ?_, fun X => ?_⟩
    · rw [encodeLoop_cons, if_pos hb1, if_pos hsafe]; rfl
    · unfold htmlSafeSet at hsafe
      simp only [decide_eq_true_eq] at hsafe
      simp only [List.singleton_append]
      rw [unquoteLoop_cons, if_neg hsafe.2.2.2.1, if_neg (by
        rintro (h | h)
        · exact hsafe.2.2.1 h
        · omega), if_pos hb1]
  by_cases hbq : b = backslash ∨ b = quote
  · refine ⟨[backslash, b], fun rest => ?_, fun X => ?_⟩
    · rw [encodeLoop_cons, if_pos hb1, if_neg hsafe, if_pos hbq]; rfl
    · exact unquoteLoop_escape b b X (Or.inl ⟨by tauto, rfl⟩)
  by_cases hn : b.val = 0x0a
  · refine ⟨[backslash, 0x6e], fun rest => ?_, fun X => ?_⟩
    · rw [encodeLoop_cons, if_pos hb1, if_neg hsafe, if_neg hbq, if_pos hn]; rfl
    · have : b = 0x0a := Fin.ext hn
      exact unquoteLoop_escape 0x6e b X (Or.inr (Or.inl ⟨rfl, this⟩))
  by_cases hr : b.val = 0x0d
  · refine ⟨[backslash, 0x72], fun rest => ?_, fun X => ?_⟩
    · rw [encodeLoop_cons, if_pos hb1, if_neg hsafe, if_neg hbq, if_neg hn, if_pos hr]; rfl
    · have : b = 0x0d := Fin.ext hr
      exact unquoteLoop_escape 0x72 b X (Or.inr (Or.inr (Or.inl ⟨rfl, this⟩)))
  by_cases ht : b.val = 0x09
  · refine ⟨[backslash, 0x74], fun rest => ?_, fun X => ?_⟩
    · rw [encodeLoop_cons, if_pos hb1, if_neg hsafe, if_neg hbq, if_neg hn, if_neg hr, if_pos ht]
      rfl
    · have : b = 0x09 := Fin.ext ht
      exact unquoteLoop_escape 0x74 b X (Or.inr (Or.inr (Or.inr ⟨rfl, this⟩)))
  · refine ⟨[backslash, 0x75, 0x30, 0x30, hexAt (b.val >>> 4), hexAt (b.val &&& 0xF)],
      fun rest => ?_, fun X => ?_⟩
    · rw [encodeLoop_cons, if_pos hb1, if_neg hsafe, if_neg hbq, if_neg hn, if_neg hr, if_neg ht]
      rfl
    · have h4 : b.val >>> 4 = b.val / 16 := Nat.shiftRight_eq_div_pow _ 4
      have hg := getu4_eq 0x30 0x30 (hexAt (b.val >>> 4)) (hexAt (b.val &&& 0xF)) X 0 0
        (b.val >>> 4) (b.val &&& 0xF) rfl rfl (hexValue_hexAt _ (by omega))
        (hexValue_hexAt _ (by rw [and_0xF]; omega))
      have hv : ((0 * 16 + 0) * 16 + b.val >>> 4) * 16 + (b.val &&& 0xF) = b.val := by
        rw [and_0xF, h4]; omega
      rw [hv] at hg
      have hsur : IsSurrogate b.val = false := by
        unfold IsSurrogate; simp only [decide_eq_false_iff_not]; omega
      simp only [List.cons_append, List.nil_append]
      rw [unquoteLoop_u4 _ _ _ _ X b.val hg hsur, EncodeRune_as b hb]
      rfl

/-- A byte that starts no valid sequence: the encoder writes the escape of U+FFFD, which is decoded
to the three bytes of U+FFFD. -/
theorem invalid_step (b : Byte) (rest : GoString) (hb : 0x80 ≤ b.val)
    (hd : DecodeRune (b :: rest) = (RuneError, 1)) :
    encodeLoop (b :: rest) 0 = ascii "\\ufffd" ++ encodeLoop rest 0
      ∧ toValidLoop (b :: rest) 0 = EncodeRune RuneError ++ toValidLoop rest 0
      ∧ validLoop (b :: rest) 0 = false
      ∧ ∀ X, unquoteLoop (ascii "\\ufffd" ++ X) 0
          = (unquoteLoop X 0).map (fun t => EncodeRune RuneError ++ t) := by
  refine ⟨?_, ?_, ?_, fun X => ?_⟩
  · rw [encodeLoop_cons, if_neg (by unfold RuneSelf; omega), hd, if_pos ⟨rfl, rfl⟩]
  · rw [toValidLoop, hd]; simp
  · rw [validLoop, hd]; simp
  · exact unquoteLoop_u4 0x66 0x66 0x66 0x64 X RuneError rfl rfl

/-! ## JSON encoding followed by decoding -/

theorem encodeLoop_seq {chunk : GoString} {c : Nat} (h : IsSeq chunk c) :
    ∃ pre, (∀ rest1, encodeLoop (chunk ++ rest1) 0 = pre ++ encodeLoop rest1 0)
      ∧ ∀ X, unquoteLoop (pre ++ X) 0 = (unquoteLoop X 0).map (fun t => chunk ++ t) := by
  obtain ⟨b, l, rfl, hb, hl⟩ := h.cons
  have h2 := h.2.1
  have he := h.2.2.1
  simp only [List.length_cons] at h2
  have hstep : ∀ rest1, encodeLoop (b :: l ++ rest1) 0 =
      if c = 0x2028 ∨ c = 0x2029 then ascii "\\u202" ++ hexAt (c &&& 0xF) :: encodeLoop rest1 0
      else (b :: l) ++ encodeLoop rest1 0 := by
    intro rest1
    have hd := h.1 rest1
    simp only [List.cons_append, List.length_cons] at hd ⊢
    rw [encodeLoop_cons, if_neg (by unfold RuneSelf; omega), hd]
    simp only [Nat.add_sub_cancel]
    rw [if_neg (by omega), encodeLoop_skip l rest1]
    have ht : List.take (l.length + 1) (b :: (l ++ rest1)) = b :: l := by
      simp only [List.take_succ_cons, List.take_left]
    rw [ht]
    rfl
  by_cases hc : c = 0x2028 ∨ c = 0x2029
  · refine ⟨ascii "\\u202" ++ [hexAt (c &&& 0xF)], fun rest1 => ?_, fun X => ?_⟩
    · rw [hstep, if_pos hc]; rfl
    · have hg : getu4 (backslash :: 0x75 :: 0x32 :: 0x30 :: 0x32 :: hexAt (c &&& 0xF) :: X)
          = some c := by
        rcases hc with rfl | rfl <;> rfl
      have hs : IsSurrogate c = false := by
        rcases hc with rfl | rfl <;> rfl
      have := unquoteLoop_u4 0x32 0x30 0x32 (hexAt (c &&& 0xF)) X c hg hs
      rw [he] at this
      exact this
  · refine ⟨b :: l, fun rest1 => ?_, fun X => unquoteLoop_seq h X⟩
    rw [hstep, if_neg hc]

theorem toValidLoop_as (b : Byte) (rest : GoString) (hb : b.val < 0x80) :
    toValidLoop (b :: rest) 0 = b :: toValidLoop rest 0 := by
  rw [toValidLoop, DecodeRune_as b rest hb]
  simp only
  rw [if_neg (by unfold RuneError; omega)]
  rfl

theorem validLoop_as (b : Byte) (rest : GoString) (hb : b.val < 0x80) :
    validLoop (b :: rest) 0 = validLoop rest 0 := by
  rw [validLoop, DecodeRune_as b rest hb]
  simp only
  rw [if_neg (by unfold RuneError; omega)]

/-- Decoding what the encoder wrote gives the string coerced to valid UTF-8. -/
theorem unquoteLoop_encodeLoop (s : GoString) :
    unquoteLoop (encodeLoop s 0) 0 = some (toValidLoop s 0) := by
  generalize hn : s.length = n
  induction n using Nat.strong_induction_on generalizing s with
  | _ n ih =>
    rcases s with _ | ⟨b, rest⟩
    · rfl
    by_cases hb : b.val < 0x80
    · obtain ⟨pre, henc, hdec⟩ := ascii_step b hb
      rw [henc, hdec, toValidLoop_as b rest hb, ih rest.length (by simp [← hn]) rest rfl]
      rfl
    rcases DecodeRune_cases b rest (by omega) with hd | ⟨chunk, c, rest1, hs, hseq⟩
    · obtain ⟨henc, hval, _, hdec⟩ := invalid_step b rest (by omega) hd
      rw [henc, hdec, hval, ih rest.length (by simp [← hn]) rest rfl]
      rfl
    · obtain ⟨pre, henc, hdec⟩ := encodeLoop_seq hseq
      have hlen : rest1.length < n := by
        have := congrArg List.length hs
        have h2 := hseq.2.1
        simp only [List.length_cons, List.length_append] at this hn
        omega
      rw [hs, henc, hdec, toValidLoop_seq hseq, ih rest1.length hlen rest1 rfl]
      rfl

theorem toValidLoop_of_valid (s : GoString) (h : validLoop s 0 = true) :
    toValidLoop s 0 = s := by
  generalize hn : s.length = n
  induction n using Nat.strong_induction_on generalizing s with
  | _ n ih =>
    rcases s with _ | ⟨b, rest⟩
    · rfl
    by_cases hb : b.val < 0x80
    · rw [validLoop_as b rest hb] at h
      rw [toValidLoop_as b rest hb, ih rest.length (by simp [← hn]) rest h rfl]
    rcases DecodeRune_cases b rest (by omega) with hd | ⟨chunk, c, rest1, hs, hseq⟩
    · rw [(invalid_step b rest (by omega) hd).2.2.1] at h
      exact absurd h (by decide)
    · have hlen : rest1.length < n := by
        have := congrArg List.length hs
        have h2 := hseq.2.1
        simp only [List.length_cons, List.length_append] at this hn
        omega
      rw [hs, validLoop_seq hseq] at h
      rw [hs, toValidLoop_seq hseq, ih rest1.length hlen rest1 h rfl]

theorem validLoop_append (a b : GoString) (ha : validLoop a 0 = true)
    (hb : validLoop b 0 = true) : validLoop (a ++ b) 0 = true := by
  generalize hn : a.length = n
  induction n using Nat.strong_induction_on generalizing a with
  | _ n ih =>
    rcases a with _ | ⟨x, rest⟩
    · exact hb
    by_cases hx : x.val < 0x80
    · rw [validLoop_as x rest hx] at ha
      rw [List.cons_append, validLoop_as x _ hx]
      exact ih rest.length (by simp [← hn]) rest ha rfl
    rcases DecodeRune_cases x rest (by omega) with hd | ⟨chunk, c, rest1, hs, hseq⟩
    · rw [(invalid_step x rest (by omega) hd).2.2.1] at ha
      exact absurd ha (by decide)
    · have hlen : rest1.length < n := by
        have := congrArg List.length hs
        have h2 := hseq.2.1
        simp only [List.length_cons, List.length_append] at this hn
        omega
      rw [hs, validLoop_seq hseq] at ha
      rw [hs, List.append_assoc, validLoop_seq hseq]
      exact ih rest1.length hlen rest1 ha rfl

theorem validLoop_of_ascii (s : GoString) (h : ∀ x ∈ s, x.val < 0x80) :
    validLoop s 0 = true := by
  induction s with
  | nil => rfl
  | cons b rest ih =>
    rw [validLoop_as b rest (h b (by simp))]
    exact ih (fun x hx => h x (by simp [hx]))

theorem unquoteBytes_encodeString (s : GoString) :
    unquoteBytes (encodeString s) = some (toValidUTF8 s) := by
  unfold unquoteBytes encodeString toValidUTF8
  rw [if_neg]
  · have : (quote :: encodeLoop s 0 ++ [quote]).tail.dropLast = encodeLoop s 0 := by
      simp only [List.cons_append, List.tail_cons, List.dropLast_concat]
    rw [this]
    exact unquoteLoop_encodeLoop s
  · have h1 : (quote :: encodeLoop s 0 ++ [quote]).getLast? = some quote := by
      rw [List.getLast?_append]
      rfl
    rintro (h | h | h)
    · simp only [List.length_append, List.length_cons, List.length_nil] at h
      omega
    · exact h rfl
    · exact h h1

/-! ## The timestamp is ASCII, the envelope valid UTF-8 -/

theorem isAscii_of_all (s : GoString) (h : s.all (fun x => decide (x.val < 0x80)) = true) :
    IsAscii s := by
  intro x hx
  have := List.all_eq_true.1 h x hx
  simpa using this

theorem IsAscii.append {a b : GoString} (ha : IsAscii a) (hb : IsAscii b) : IsAscii (a ++ b) := by
  intro x hx
  rcases List.mem_append.1 hx with h | h
  · exact ha x h
  · exact hb x h

theorem isAscii_decimalDigits (fuel u : Nat) : IsAscii (decimalDigits fuel u) := by
  induction fuel generalizing u with
  | zero =>
    intro x hx
    simp only [decimalDigits, List.mem_singleton] at hx
    subst hx
    show (0x30 + u % 10) % 256 < 0x80
    omega
  | succ n ih =>
    unfold decimalDigits
    split
    · refine (ih _).append ?_
      intro x hx
      simp only [List.mem_singleton] at hx
      subst hx
      show (0x30 + u % 10) % 256 < 0x80
      omega
    · intro x hx
      simp only [List.mem_singleton] at hx
      subst hx
      show (0x30 + u) % 256 < 0x80
      omega

theorem isAscii_appendInt (x : Int) (width : Nat) : IsAscii (appendInt x width) := by
  unfold appendInt
  refine IsAscii.append (IsAscii.append ?_ ?_) (isAscii_decimalDigits _ _)
  · split
    · exact isAscii_of_all _ rfl
    · intro x hx; simp at hx
  · intro y hy
    rw [List.eq_of_mem_replicate hy]
    decide

theorem isAscii_formatZone (offset : Int) : IsAscii (formatZone offset) := by
  unfold formatZone
  split
  · exact isAscii_of_all _ rfl
  · refine IsAscii.append (IsAscii.append (IsAscii.append ?_ (isAscii_appendInt _ _))
      (isAscii_of_all _ rfl)) (isAscii_appendInt _ _)
    split <;> exact isAscii_of_all _ rfl

theorem isAscii_formatRFC3339 (t : Time) : IsAscii (formatRFC3339 t) := by
  unfold formatRFC3339
  have hd : IsAscii (ascii "-") := isAscii_of_all _ rfl
  have hT : IsAscii (ascii "T") := isAscii_of_all _ rfl
  have hc : IsAscii (ascii ":") := isAscii_of_all _ rfl
  exact ((((((((((((isAscii_appendInt _ _).append hd).append (isAscii_appendInt _ _)).append
    hd).append (isAscii_appendInt _ _)).append hT).append (isAscii_appendInt _ _)).append
    hc).append (isAscii_appendInt _ _)).append hc).append (isAscii_appendInt _ _)).append
    (isAscii_formatZone _))

theorem ValidString_of_isAscii {s : GoString} (h : IsAscii s) : ValidString s = true :=
  validLoop_of_ascii s h

theorem ValidString_append {a b : GoString} (ha : ValidString a = true)
    (hb : ValidString b = true) : ValidString (a ++ b) = true :=
  validLoop_append a b ha hb

/-- The envelope of valid parts is valid UTF-8. -/
theorem ValidString_envelope (t : Time) (loggerID msg : GoString)
    (hl : ValidString loggerID = true) (hm : ValidString msg = true) :
    ValidString (ascii "[" ++ formatRFC3339 t ++ ascii "] [" ++ loggerID ++ ascii "] " ++ msg)
      = true := by
  have h1 : ValidString (ascii "[") = true := by decide
  have h2 : ValidString (ascii "] [") = true := by decide
  have h3 : ValidString (ascii "] ") = true := by decide
  exact ValidString_append (ValidString_append (ValidString_append (ValidString_append
    (ValidString_append h1 (ValidString_of_isAscii (isAscii_formatRFC3339 t))) h2) hl) h3) hm

/-! ## Splitting and joining -/

theorem Split_cons_sep (sep : Byte) (rest : GoString) :
    Split sep (sep :: rest) = [] :: Split sep rest := by
  rw [Split, if_pos rfl]

theorem Split_ne_nil (sep : Byte) (s : GoString) : Split sep s ≠ [] := by
  induction s with
  | nil => simp [Split]
  | cons b rest ih =>
    rw [Split]
    split
    · simp
    · split <;> simp

theorem Split_cons_ne (sep b : Byte) (rest : GoString) (h : b ≠ sep) :
    ∃ piece pieces, Split sep rest = piece :: pieces
      ∧ Split sep (b :: rest) = (b :: piece) :: pieces := by
  rcases hs : Split sep rest with _ | ⟨piece, pieces⟩
  · exact absurd hs (Split_ne_nil sep rest)
  · refine ⟨piece, pieces, rfl, ?_⟩
    rw [Split, if_neg h, hs]

theorem Split_length (sep : Byte) (s : GoString) :
    (Split sep s).length = s.count sep + 1 := by
  induction s with
  | nil => rfl
  | cons b rest ih =>
    by_cases h : b = sep
    · subst h
      rw [Split_cons_sep, List.length_cons, ih, List.count_cons_self]
    · obtain ⟨piece, pieces, h1, h2⟩ := Split_cons_ne sep b rest h
      rw [h2, List.count_cons_of_ne (Ne.symm h), ← ih, h1]
      rfl

theorem Split_no_sep (sep : Byte) (s : GoString) : ∀ p ∈ Split sep s, sep ∉ p := by
  induction s with
  | nil => intro p hp; simp [Split] at hp; subst hp; simp
  | cons b rest ih =>
    by_cases h : b = sep
    · subst h
      rw [Split_cons_sep]
      intro p hp
      rcases List.mem_cons.1 hp with rfl | hp
      · simp
      · exact ih p hp
    · obtain ⟨piece, pieces, h1, h2⟩ := Split_cons_ne sep b rest h
      rw [h2]
      rw [h1] at ih
      intro p hp
      rcases List.mem_cons.1 hp with rfl | hp
      · intro hmem
        rcases List.mem_cons.1 hmem with rfl | hmem
        · exact h rfl
        · exact ih piece (by simp) hmem
      · exact ih p (by simp [hp])

theorem Join_Split (sep : Byte) (s : GoString) : Join sep (Split sep s) = s := by
  induction s with
  | nil => rfl
  | cons b rest ih =>
    by_cases h : b = sep
    · subst h
      rw [Split_cons_sep]
      rcases hs : Split b rest with _ | ⟨piece, pieces⟩
      · exact absurd hs (Split_ne_nil b rest)
      · rw [hs] at ih
        rw [Join, ih]
        rfl
    · obtain ⟨piece, pieces, h1, h2⟩ := Split_cons_ne sep b rest h
      rw [h2]
      rw [h1] at ih
      rcases pieces with _ | ⟨next, pieces⟩
      · rw [Join] at ih ⊢
        rw [ih]
      · rw [Join] at ih ⊢
        rw [← ih]
        rfl

/-! ## Helper lemmas on the adapter -/

theorem Marshal_ok (v : GoString) : Marshal v = .ok (encodeString v) := rfl

theorem Getenv_unset (env : Env) (key : String)
    (h : env key = none ∨ env key = some []) : Getenv env key = [] := by
  unfold Getenv
  rcases h with h | h <;> rw [h] <;> rfl

theorem getBrokersFromEnv_ok (env : Env) (v : GoString) (hv : env "KAFKA_BROKERS" = some v)
    (hne : v ≠ []) : getBrokersFromEnv env = .ok (Split comma v) := by
  unfold getBrokersFromEnv Getenv
  rw [hv]
  simp only [Option.getD_some]
  rw [if_neg]
  intro h
  exact hne (List.length_eq_zero.1 h)

theorem Send_eq (p : AsyncProducer) (m : SaramaProducer) (now1 now2 : Time) (msg : GoString)
    (hp : p.prodr = some m) :
    p.Send now1 now2 msg = .returned []
      { p with prodr := some { m with input := m.input ++ [record p.loggerID (now1, now2, msg)] } } := by
  unfold AsyncProducer.Send AsyncProducer.SendWith Marshal
  simp only [hp]
  rfl

/-! ## The claims -/

/-- C1: with `KAFKA_BROKERS` unset or empty, `getBrokersFromEnv` returns the error
`NO_KAFKA_BROKERS_ARG_IN_ENV` and `NewAsyncProducer` panics with exactly that message,
for every logger identity and every client-construction function. -/
theorem NewAsyncProducer_no_brokers (env : Env) (factory : ProducerFactory)
    (loggerID : GoString)
    (h : env "KAFKA_BROKERS" = none ∨ env "KAFKA_BROKERS" = some []) :
    getBrokersFromEnv env = .error "NO_KAFKA_BROKERS_ARG_IN_ENV"
      ∧ NewAsyncProducer env factory loggerID = .panicked "NO_KAFKA_BROKERS_ARG_IN_ENV" := by
  have hg : getBrokersFromEnv env = .error "NO_KAFKA_BROKERS_ARG_IN_ENV" := by
    unfold getBrokersFromEnv
    rw [Getenv_unset env _ h]
    rfl
  refine ⟨hg, ?_⟩
  unfold NewAsyncProducer
  simp only [hg]

theorem NewAsyncProducer_no_brokers_witness :
    (emptyEnv "KAFKA_BROKERS" = none ∨ emptyEnv "KAFKA_BROKERS" = some [])
      ∧ getBrokersFromEnv emptyEnv = .error "NO_KAFKA_BROKERS_ARG_IN_ENV"
      ∧ NewAsyncProducer emptyEnv idleGetSaramaProducer (ascii "testingLogger")
          = .panicked "NO_KAFKA_BROKERS_ARG_IN_ENV" :=
  ⟨Or.inl rfl, NewAsyncProducer_no_brokers emptyEnv idleGetSaramaProducer
    (ascii "testingLogger") (Or.inl rfl)⟩

/-- C2: with a non-empty `KAFKA_BROKERS`, when the client-construction function returns
the error `e`, `NewAsyncProducer` panics with exactly the message of `e` and returns no
sender. -/
theorem NewAsyncProducer_factory_error (env : Env) (factory : ProducerFactory)
    (loggerID v : GoString) (e : GoError)
    (hv : env "KAFKA_BROKERS" = some v) (hne : v ≠ [])
    (hf : (factory ⟨loggerID, conf, Split comma v, none⟩).2 = some e) :
    NewAsyncProducer env factory loggerID = .panicked e := by
  unfold NewAsyncProducer
  simp only [getBrokersFromEnv_ok env v hv hne]
  split
  · next x err heq =>
    rw [heq] at hf
    simp only [Option.some.injEq] at hf
    rw [hf]
  · next x prodr heq =>
    rw [heq] at hf
    exact absurd hf (by simp)

theorem NewAsyncProducer_factory_error_witness :
    testEnv "KAFKA_BROKERS" = some brokersEnvVar ∧ brokersEnvVar ≠ []
      ∧ NewAsyncProducer testEnv failingGetSaramaProducer (ascii "testingLogger")
          = .panicked "mock error" :=
  ⟨rfl, by decide, NewAsyncProducer_factory_error testEnv failingGetSaramaProducer
    (ascii "testingLogger") brokersEnvVar "mock error" rfl (by decide) rfl⟩

/-- C3 (as stated, refuted): under the successful stub of the tests, which returns nil and
leaves the adapter untouched, `NewAsyncProducer` returns an adapter whose producer handle
is absent; `Send`, `Close` and both goroutines of `init` then fail on the nil handle. -/
theorem NewAsyncProducer_stub_handle_absent :
    NewAsyncProducer testEnv stubGetSaramaProducer (ascii "testingLogger")
        = .returned [] (testAdapter none, [.signalLoop, .errorDrain])
      ∧ (testAdapter none).prodr = none
      ∧ (testAdapter none).Send clock0 clock0 (ascii "hello") = .panicked nilDereference
      ∧ (testAdapter none).Close = .panicked nilDereference
      ∧ Goroutine.signalLoop.run (testAdapter none) .Interrupt = .panicked nilDereference
      ∧ Goroutine.errorDrain.run (testAdapter none) .Interrupt = .panicked nilDereference := by
  decide

/-- C3 (amended): with a non-empty `KAFKA_BROKERS` and a client-construction function that
returns no error and assigns nothing of the adapter but the field `prodr`,
`NewAsyncProducer` does not fail: it returns the adapter with the given logger identity,
the fixed configuration, the brokers of the environment and the handle that the
construction function left, and it has started the two goroutines. When that handle is
present, all four act on it: `Send` appends its record to the input queue of that
producer; `Close` calls the `Close` of that producer exactly once, returning when it
gives no error and exiting with status 1 when it gives one; the signal loop, on a signal,
calls the `Close` of that producer exactly once and exits with status 1; the error drain
logs the notifications pending on that producer. -/
theorem NewAsyncProducer_success (env : Env) (factory : ProducerFactory)
    (loggerID v : GoString) (handle : Option SaramaProducer)
    (hv : env "KAFKA_BROKERS" = some v) (hne : v ≠ [])
    (hf : factory ⟨loggerID, conf, Split comma v, none⟩ = (handle, none)) :
    NewAsyncProducer env factory loggerID
        = .returned [] (⟨loggerID, conf, Split comma v, handle⟩, [.signalLoop, .errorDrain])
      ∧ ∀ m, handle = some m →
          (∀ now1 now2 msg, (⟨loggerID, conf, Split comma v, handle⟩ : AsyncProducer).Send
              now1 now2 msg = .returned [] ⟨loggerID, conf, Split comma v,
                some { m with input := m.input ++ [record loggerID (now1, now2, msg)] }⟩)
          ∧ (m.closeResult = none →
              (⟨loggerID, conf, Split comma v, handle⟩ : AsyncProducer).Close
                = .returned [] ⟨loggerID, conf, Split comma v,
                    some { m with closeCalls := m.closeCalls + 1 }⟩)
          ∧ (∀ err, m.closeResult = some err →
              (⟨loggerID, conf, Split comma v, handle⟩ : AsyncProducer).Close
                = .exited ["Error closing kafka AsyncProducer" ++ err] 1
                    ⟨loggerID, conf, Split comma v,
                      some { m with closeCalls := m.closeCalls + 1 }⟩)
          ∧ (m.closeResult = none →
              ∀ sig, Goroutine.signalLoop.run ⟨loggerID, conf, Split comma v, handle⟩ sig
                = .exited ["kafka AsyncProducer producer closed"] 1
                    ⟨loggerID, conf, Split comma v,
                      some { m with closeCalls := m.closeCalls + 1 }⟩)
          ∧ (∀ err, m.closeResult = some err →
              ∀ sig, Goroutine.signalLoop.run ⟨loggerID, conf, Split comma v, handle⟩ sig
                = .exited ["Error closing kafka AsyncProducer" ++ err] 1
                    ⟨loggerID, conf, Split comma v,
                      some { m with closeCalls := m.closeCalls + 1 }⟩)
          ∧ (∀ sig, Goroutine.errorDrain.run ⟨loggerID, conf, Split comma v, handle⟩ sig
              = .returned (m.errors.map (fun err => "Failed to write message to topic:  " ++ err))
                  ⟨loggerID, conf, Split comma v, some { m with errors := [] }⟩) := by
  constructor
  · unfold NewAsyncProducer
    simp only [getBrokersFromEnv_ok env v hv hne, hf]
    rfl
  · intro m hm
    subst hm
    refine ⟨fun now1 now2 msg => Send_eq _ m now1 now2 msg rfl, fun hc => ?_, fun err hc => ?_,
      fun hc sig => ?_, fun err hc sig => ?_, fun sig => rfl⟩
    · unfold AsyncProducer.Close
      simp only [hc]
    · unfold AsyncProducer.Close
      simp only [hc]
    · unfold Goroutine.run AsyncProducer.signalLoop
      simp only [hc]
    · unfold Goroutine.run AsyncProducer.signalLoop
      simp only [hc]

theorem NewAsyncProducer_success_witness :
    testEnv "KAFKA_BROKERS" = some brokersEnvVar ∧ brokersEnvVar ≠ []
      ∧ idleGetSaramaProducer ⟨ascii "testingLogger", conf, Split comma brokersEnvVar, none⟩
          = (some idleProducer, none)
      ∧ NewAsyncProducer testEnv idleGetSaramaProducer (ascii "testingLogger")
          = .returned [] (testAdapter (some idleProducer), [.signalLoop, .errorDrain])
      ∧ (testAdapter (some idleProducer)).Send clock0 clock0 (ascii "hello")
          = .returned [] (testAdapter (some { idleProducer with
              input := [record (ascii "testingLogger") (clock0, clock0, ascii "hello")] }))
      ∧ (testAdapter (some idleProducer)).Close
          = .returned [] (testAdapter (some { idleProducer with closeCalls := 1 }))
      ∧ Goroutine.signalLoop.run (testAdapter (some idleProducer)) .Interrupt
          = .exited ["kafka AsyncProducer producer closed"] 1
              (testAdapter (some { idleProducer with closeCalls := 1 }))
      ∧ Goroutine.errorDrain.run (testAdapter (some idleProducer)) .Interrupt
          = .returned [] (testAdapter (some idleProducer)) :=
  have h := NewAsyncProducer_success testEnv idleGetSaramaProducer (ascii "testingLogger")
    brokersEnvVar (some idleProducer) rfl (by decide) rfl
  have hm := h.2 idleProducer rfl
  ⟨rfl, by decide, rfl, h.1, hm.1 clock0 clock0 (ascii "hello"), hm.2.1 rfl,
    hm.2.2.2.1 rfl .Interrupt, hm.2.2.2.2.2 .Interrupt⟩

/-- C4 (as stated, refuted): for the message of the single byte `0xFF`, which is not valid
UTF-8, `Send` enqueues one record, and JSON-decoding its value gives the envelope with
the three bytes of U+FFFD in place of that byte, not the envelope itself. -/
theorem Send_invalid_utf8_not_restored :
    (testAdapter (some idleProducer)).Send clock0 clock0 [0xff]
        = .returned [] (testAdapter (some { idleProducer with
            input := [record (ascii "testingLogger") (clock0, clock0, [0xff])] }))
      ∧ unquoteBytes (record (ascii "testingLogger") (clock0, clock0, [0xff])).Value
          = some (ascii "[2018-03-09T14:05:07Z] [testingLogger] " ++ [0xef, 0xbf, 0xbd])
      ∧ unquoteBytes (record (ascii "testingLogger") (clock0, clock0, [0xff])).Value
          ≠ some (ascii "[" ++ formatRFC3339 clock0 ++ ascii "] [" ++ ascii "testingLogger"
              ++ ascii "] " ++ [0xff]) := by
  decide

/-- C4 (amended): `Send(msg)` on an initialised adapter appends exactly one record to the
input queue of the producer; the record has topic `logs`, no key, and as value the JSON
encoding of the string `[RFC3339(t)] [loggerID] msg`. JSON-decoding the value gives that
string with each byte that is not part of a valid UTF-8 sequence replaced by U+FFFD, and
so exactly that string whenever `loggerID` and `msg` are valid UTF-8. -/
theorem Send_enqueues_envelope (p : AsyncProducer) (m : SaramaProducer) (now1 now2 : Time)
    (msg : GoString) (hp : p.prodr = some m) :
    ∃ rec : ProducerMessage,
      p.Send now1 now2 msg
          = .returned [] { p with prodr := some { m with input := m.input ++ [rec] } }
      ∧ rec.Topic = ascii "logs" ∧ rec.Key = none
      ∧ rec.Value = encodeString
          (ascii "[" ++ formatRFC3339 now1 ++ ascii "] [" ++ p.loggerID ++ ascii "] " ++ msg)
      ∧ Marshal (ascii "[" ++ formatRFC3339 now1 ++ ascii "] [" ++ p.loggerID ++ ascii "] " ++ msg)
          = .ok rec.Value
      ∧ unquoteBytes rec.Value = some (toValidUTF8
          (ascii "[" ++ formatRFC3339 now1 ++ ascii "] [" ++ p.loggerID ++ ascii "] " ++ msg))
      ∧ (ValidString p.loggerID = true → ValidString msg = true →
          unquoteBytes rec.Value
            = some (ascii "[" ++ formatRFC3339 now1 ++ ascii "] [" ++ p.loggerID ++ ascii "] "
                ++ msg)) := by
  refine ⟨record p.loggerID (now1, now2, msg), Send_eq p m now1 now2 msg hp, rfl, rfl, rfl, rfl,
    unquoteBytes_encodeString _, fun hl hm => ?_⟩
  have hvalid := ValidString_envelope now1 p.loggerID msg hl hm
  show unquoteBytes (encodeString _) = _
  rw [unquoteBytes_encodeString]
  unfold toValidUTF8
  rw [toValidLoop_of_valid _ hvalid]

theorem Send_enqueues_envelope_witness :
    (testAdapter (some idleProducer)).prodr = some idleProducer
      ∧ ∃ rec : ProducerMessage,
        (testAdapter (some idleProducer)).Send clock0 clock0 (ascii "hello")
            = .returned [] (testAdapter (some { idleProducer with input := [rec] }))
        ∧ rec.Topic = ascii "logs" ∧ rec.Key = none
        ∧ unquoteBytes rec.Value = some (ascii "[2018-03-09T14:05:07Z] [testingLogger] hello") := by
  obtain ⟨rec, h1, h2, h3, _, _, _, h7⟩ := Send_enqueues_envelope (testAdapter (some idleProducer))
    idleProducer clock0 clock0 (ascii "hello") rfl
  exact ⟨rfl, rec, h1, h2, h3, h7 (by decide) (by decide)⟩

theorem sendAll_eq (calls : List (Time × Time × GoString)) (p : AsyncProducer)
    (m : SaramaProducer) (hp : p.prodr = some m) :
    sendAll p calls = .returned []
      { p with prodr := some { m with input := m.input ++ calls.map (record p.loggerID) } } := by
  induction calls generalizing p m with
  | nil =>
    cases p
    cases m
    simp only at hp
    subst hp
    simp [sendAll]
  | cons call calls ih =>
    obtain ⟨now1, now2, msg⟩ := call
    rw [sendAll, Send_eq p m now1 now2 msg hp]
    simp only
    rw [ih _ _ rfl]
    simp

/-- C5: for an initialised adapter, after the messages `m1..mn` have been passed to `Send`
one call after another, the input queue is the queue before followed by exactly `n` new
records in call order, the i-th carrying the envelope of `mi`; in particular two
successive calls leave their two records in call order. -/
theorem sendAll_preserves_order (p : AsyncProducer) (m : SaramaProducer)
    (calls : List (Time × Time × GoString)) (hp : p.prodr = some m) :
    sendAll p calls = .returned []
        { p with prodr := some { m with input := m.input ++ calls.map (record p.loggerID) } }
      ∧ (m.input ++ calls.map (record p.loggerID)).length = m.input.length + calls.length
      ∧ (∀ i (hi : i < calls.length),
          (m.input ++ calls.map (record p.loggerID)).get? (m.input.length + i)
            = some (record p.loggerID (calls.get ⟨i, hi⟩)))
      ∧ (∀ i (hi : i < calls.length),
          ((m.input ++ calls.map (record p.loggerID)).get? (m.input.length + i)).map
              (fun r => unquoteBytes r.Value)
            = some (some (toValidUTF8 (ascii "[" ++ formatRFC3339 (calls.get ⟨i, hi⟩).1
                ++ ascii "] [" ++ p.loggerID ++ ascii "] " ++ (calls.get ⟨i, hi⟩).2.2)))) := by
  have hget : ∀ i (hi : i < calls.length),
      (m.input ++ calls.map (record p.loggerID)).get? (m.input.length + i)
        = some (record p.loggerID (calls.get ⟨i, hi⟩)) := by
    intro i hi
    rw [List.get?_eq_getElem?, List.getElem?_append_right (by omega)]
    simp only [Nat.add_sub_cancel_left, List.getElem?_map, List.get_eq_getElem]
    rw [List.getElem?_eq_getElem hi]
    rfl
  refine ⟨sendAll_eq calls p m hp, by simp, hget, fun i hi => ?_⟩
  rw [hget i hi]
  show some (unquoteBytes (encodeString _)) = _
  rw [unquoteBytes_encodeString]

theorem sendAll_preserves_order_witness :
    (testAdapter (some idleProducer)).prodr = some idleProducer
      ∧ sendAll (testAdapter (some idleProducer))
          [(clock0, clock0, ascii "first"), (clock0, clock0, ascii "second")]
        = .returned [] (testAdapter (some { idleProducer with input :=
            [record (ascii "testingLogger") (clock0, clock0, ascii "first"),
             record (ascii "testingLogger") (clock0, clock0, ascii "second")] }))
      ∧ (([] : List ProducerMessage) ++ [(clock0, clock0, ascii "first"),
            (clock0, clock0, ascii "second")].map (record (ascii "testingLogger"))).get? 1
          = some (record (ascii "testingLogger") (clock0, clock0, ascii "second")) :=
  have h := sendAll_preserves_order (testAdapter (some idleProducer)) idleProducer
    [(clock0, clock0, ascii "first"), (clock0, clock0, ascii "second")] rfl
  ⟨rfl, h.1, h.2.2.1 1 (by decide)⟩

/-- C6: when the JSON encoding of the envelope fails, `Send` enqueues no record (the
adapter and the input queue of its producer are unchanged), does not panic and returns to
the caller; the failure is only logged. Stated for `Send` with its encoder as a
parameter, `Send` itself being the instance at `json.Marshal`. -/
theorem SendWith_encoding_failure (marshal : GoString → Except GoError GoString)
    (p : AsyncProducer) (now1 now2 : Time) (msg : GoString) (err : GoError)
    (h : marshal (ascii "[" ++ formatRFC3339 now1 ++ ascii "] [" ++ p.loggerID ++ ascii "] "
      ++ msg) = .error err) :
    p.SendWith marshal now1 now2 msg
        = .returned ["Failed json encoding kafka log msg:  " ++ err] p
      ∧ p.Send now1 now2 msg = p.SendWith Marshal now1 now2 msg := by
  refine ⟨?_, rfl⟩
  unfold AsyncProducer.SendWith
  simp only [h]

theorem SendWith_encoding_failure_witness :
    failingMarshal (ascii "[" ++ formatRFC3339 clock0 ++ ascii "] ["
        ++ (testAdapter (some idleProducer)).loggerID ++ ascii "] " ++ ascii "hello")
        = .error "mock encoding error"
      ∧ (testAdapter (some idleProducer)).SendWith failingMarshal clock0 clock0 (ascii "hello")
          = .returned ["Failed json encoding kafka log msg:  mock encoding error"]
              (testAdapter (some idleProducer)) :=
  ⟨rfl, (SendWith_encoding_failure failingMarshal (testAdapter (some idleProducer)) clock0
    clock0 (ascii "hello") "mock encoding error" rfl).1⟩

/-- C7: on an initialised adapter `Close()` calls the `Close` of the underlying producer
exactly once; it returns normally if and only if that call returns no error, and when the
call returns an error it ends the process (fatal, exit status 1) instead of returning. -/
theorem Close_once_fatal_on_error (p : AsyncProducer) (m : SaramaProducer)
    (hp : p.prodr = some m) :
    (p.Close = .returned [] { p with prodr := some { m with closeCalls := m.closeCalls + 1 } }
        ↔ m.closeResult = none)
      ∧ ((∃ log p1, p.Close = .returned log p1) ↔ m.closeResult = none)
      ∧ (∀ err, m.closeResult = some err →
          p.Close = .exited ["Error closing kafka AsyncProducer" ++ err] 1
            { p with prodr := some { m with closeCalls := m.closeCalls + 1 } }) := by
  unfold AsyncProducer.Close
  simp only [hp]
  rcases hc : m.closeResult with _ | err
  · simp
  · simp

theorem Close_once_fatal_on_error_witness :
    (testAdapter (some brokenProducer)).prodr = some brokenProducer
      ∧ (testAdapter (some brokenProducer)).Close
          = .exited ["Error closing kafka AsyncProducermock close error"] 1
              (testAdapter (some { brokenProducer with closeCalls := 1 })) :=
  ⟨rfl, (Close_once_fatal_on_error (testAdapter (some brokenProducer)) brokenProducer rfl).2.2
    "mock close error" rfl⟩

/-- C8: from the moment the signal loop of `init` receives an interrupt or kill signal, it
calls the `Close` of the underlying producer exactly once and then ends the process with
exit status 1, whatever that `Close` returns: after logging the closure when it succeeds,
fatally when it returns an error. It never exits with status 0 and never returns. -/
theorem signalLoop_closes_and_exits (p : AsyncProducer) (m : SaramaProducer) (sig : Signal)
    (hp : p.prodr = some m) :
    Goroutine.signalLoop ∈ p.init
      ∧ ∃ log, Goroutine.signalLoop.run p sig
          = .exited log 1 { p with prodr := some { m with closeCalls := m.closeCalls + 1 } }
        ∧ (m.closeResult = none → log = ["kafka AsyncProducer producer closed"])
        ∧ (∀ err, m.closeResult = some err → log = ["Error closing kafka AsyncProducer" ++ err])
        ∧ (∀ log0 p0, Goroutine.signalLoop.run p sig ≠ .exited log0 0 p0)
        ∧ (∀ log0 p0, Goroutine.signalLoop.run p sig ≠ .returned log0 p0) := by
  refine ⟨by simp [AsyncProducer.init], ?_⟩
  unfold Goroutine.run AsyncProducer.signalLoop
  simp only [hp]
  rcases hc : m.closeResult with _ | err
  · exact ⟨_, rfl, fun _ => rfl, fun e he => by simp at he, by simp, by simp⟩
  · exact ⟨_, rfl, fun h => by simp at h, fun e he => by simp at he; rw [he], by simp, by simp⟩

theorem signalLoop_closes_and_exits_witness :
    (testAdapter (some idleProducer)).prodr = some idleProducer
      ∧ Goroutine.signalLoop ∈ (testAdapter (some idleProducer)).init
      ∧ ∃ log, Goroutine.signalLoop.run (testAdapter (some idleProducer)) .Interrupt
          = .exited log 1 (testAdapter (some { idleProducer with closeCalls := 1 }))
        ∧ log = ["kafka AsyncProducer producer closed"] := by
  obtain ⟨h1, log, h2, h3, _⟩ := signalLoop_closes_and_exits (testAdapter (some idleProducer))
    idleProducer .Interrupt rfl
  exact ⟨rfl, h1, log, h2, h3 rfl⟩

/-- C9: the configuration built by `conf()` is fixed: required acknowledgments none,
success notifications off, error notifications on, compression gzip, channel buffer size
256, protocol version 0.11.0.0; and every adapter that `NewAsyncProducer` returns holds
exactly it, whatever the logger identity, the environment and the construction function. -/
theorem conf_fixed (env : Env) (factory : ProducerFactory) (loggerID : GoString)
    (log : List String) (ap : AsyncProducer) (background : List Goroutine)
    (h : NewAsyncProducer env factory loggerID = .returned log (ap, background)) :
    ap.conf = conf
      ∧ conf.ProducerRequiredAcks = .NoResponse
      ∧ conf.ProducerReturnSuccesses = false
      ∧ conf.ProducerReturnErrors = true
      ∧ conf.ProducerCompression = .CompressionGZIP
      ∧ conf.ChannelBufferSize = 256
      ∧ conf.Version = ⟨0, 11, 0, 0⟩ := by
  refine ⟨?_, rfl, rfl, rfl, rfl, rfl, rfl⟩
  unfold NewAsyncProducer at h
  simp only at h
  split at h
  · cases h
  · split at h
    · cases h
    · cases h
      rfl

theorem conf_fixed_witness :
    NewAsyncProducer testEnv idleGetSaramaProducer (ascii "testingLogger")
        = .returned [] (testAdapter (some idleProducer), [.signalLoop, .errorDrain])
      ∧ (testAdapter (some idleProducer)).conf
          = ⟨.NoResponse, false, true, .CompressionGZIP, 256, ⟨0, 11, 0, 0⟩⟩ :=
  ⟨by decide, (conf_fixed testEnv idleGetSaramaProducer (ascii "testingLogger") []
    (testAdapter (some idleProducer)) [.signalLoop, .errorDrain] (by decide)).1⟩

/-- C10: for every non-empty value `v` of `KAFKA_BROKERS`, `getBrokersFromEnv` succeeds and
returns the comma-separated segments of `v` in order: the list is non-empty, has exactly
one more element than `v` has commas, no element contains a comma, and joining the
elements with a comma gives back `v`. -/
theorem getBrokersFromEnv_segments (env : Env) (v : GoString)
    (hv : env "KAFKA_BROKERS" = some v) (hne : v ≠ []) :
    ∃ brokers, getBrokersFromEnv env = .ok brokers
      ∧ brokers ≠ []
      ∧ brokers.length = v.count comma + 1
      ∧ (∀ broker ∈ brokers, comma ∉ broker)
      ∧ Join comma brokers = v :=
  ⟨Split comma v, getBrokersFromEnv_ok env v hv hne, Split_ne_nil comma v,
    Split_length comma v, Split_no_sep comma v, Join_Split comma v⟩

theorem getBrokersFromEnv_segments_witness :
    testEnv "KAFKA_BROKERS" = some (ascii "127.0.0.1:9092,127.0.0.1:9092")
      ∧ ascii "127.0.0.1:9092,127.0.0.1:9092" ≠ []
      ∧ getBrokersFromEnv testEnv = .ok [ascii "127.0.0.1:9092", ascii "127.0.0.1:9092"]
      ∧ ∃ brokers, getBrokersFromEnv testEnv = .ok brokers
          ∧ Join comma brokers = ascii "127.0.0.1:9092,127.0.0.1:9092" := by
  obtain ⟨brokers, h1, _, _, _, h5⟩ := getBrokersFromEnv_segments testEnv
    (ascii "127.0.0.1:9092,127.0.0.1:9092") rfl (by decide)
  exact ⟨rfl, by decide, rfl, brokers, h1, h5⟩

end Kafkalog
